import Mathlib

/-!
The header codec and the resilient socket worker of pwnative.

A shallow embedding of `protocol/header.go` and `socket/socket.go`.

* Bytes and machine words are natural numbers; every truncating conversion of the
  source (`byte(v)`) is an explicit `% 256`.
* A Go slice expression `h[lo:hi]` shares storage with `h`; a write through the slice
  is modelled as a write into `h` at the shifted offset.
* The operating system (dialing, pipes, `poll`, `Read`) is an explicit environment
  argument; callbacks and system calls are recorded in an event trace.
-/

namespace Pwnative

namespace protocol

/-! ## `encoding/binary` -/

/-- The two byte orders of `encoding/binary`. -/
inductive ByteOrder
  | LittleEndian
  | BigEndian
  deriving DecidableEq, Repr

/-- `PutUint16(b, v)`: little endian stores `byte(v)`, `byte(v >> 8)`; big endian the
reverse. -/
def ByteOrder.PutUint16 (o : ByteOrder) (b : List Nat) (v : Nat) : List Nat :=
  match o with
  | .LittleEndian => (b.set 0 (v % 256)).set 1 ((v >>> 8) % 256)
  | .BigEndian => (b.set 0 ((v >>> 8) % 256)).set 1 (v % 256)

/-- `PutUint32(b[off:off+4], v)`: the four bytes of `v` written into `b` from offset
`off`, least significant first for little endian, most significant first for big endian. -/
def ByteOrder.PutUint32 (o : ByteOrder) (b : List Nat) (off : Nat) (v : Nat) : List Nat :=
  match o with
  | .LittleEndian =>
    (((b.set off (v % 256)).set (off + 1) ((v >>> 8) % 256)).set (off + 2)
      ((v >>> 16) % 256)).set (off + 3) ((v >>> 24) % 256)
  | .BigEndian =>
    (((b.set off ((v >>> 24) % 256)).set (off + 1) ((v >>> 16) % 256)).set (off + 2)
      ((v >>> 8) % 256)).set (off + 3) (v % 256)

/-- `Uint32(b[off:off+4])`: `b[0] | b[1]<<8 | b[2]<<16 | b[3]<<24` for little endian and
`b[3] | b[2]<<8 | b[1]<<16 | b[0]<<24` for big endian. -/
def ByteOrder.Uint32 (o : ByteOrder) (b : List Nat) (off : Nat) : Nat :=
  match o with
  | .LittleEndian =>
    b.getD off 0 ||| (b.getD (off + 1) 0 <<< 8) ||| (b.getD (off + 2) 0 <<< 16)
      ||| (b.getD (off + 3) 0 <<< 24)
  | .BigEndian =>
    b.getD (off + 3) 0 ||| (b.getD (off + 2) 0 <<< 8) ||| (b.getD (off + 1) 0 <<< 16)
      ||| (b.getD off 0 <<< 24)

/-! ## Go slice primitives -/

/-- The slice expression `b[lo:hi]` read as a value. -/
def slice (b : List Nat) (lo hi : Nat) : List Nat :=
  (b.drop lo).take (hi - lo)

/-- The builtin `copy(dst[lo:hi], src)`: copies `min (hi - lo) (len src)` elements into
`dst` starting at index `lo`. -/
def copy (dst : List Nat) (lo hi : Nat) (src : List Nat) : List Nat :=
  let n := min (hi - lo) src.length
  dst.take lo ++ src.take n ++ dst.drop (lo + n)

/-! ## Platform endianness -/

/-- The package variables `isLittleEndian` and `nativeEndian`. -/
structure Endian where
  isLittleEndian : Bool
  nativeEndian : ByteOrder
  deriving DecidableEq, Repr

/-- The package initialiser: the variables start as `false` / `BigEndian`; `1 : uint16`
is written in the byte order of the host and, if the first byte is `1`, they become
`true` / `LittleEndian`. -/
def init (host : ByteOrder) : Endian :=
  let b := host.PutUint16 [0, 0] 1
  if b.getD 0 0 = 1 then
    { isLittleEndian := true, nativeEndian := .LittleEndian }
  else
    { isLittleEndian := false, nativeEndian := .BigEndian }

/-! ## `Header` -/

/-- The type `Header [16]byte`, as the list of its bytes. -/
structure Header where
  bytes : List Nat
  deriving DecidableEq, Repr

/-- A header value of the Go type: exactly sixteen entries, each a byte. -/
def Header.Valid (h : Header) : Prop :=
  h.bytes.length = 16 ∧ ∀ b ∈ h.bytes, b < 256

instance (h : Header) : Decidable h.Valid := by
  unfold Header.Valid; infer_instance

/-- The zero value `Header{}`. -/
def Header.zero : Header :=
  ⟨List.replicate 16 0⟩

/-- `func (h Header) ID() uint32`. -/
def Header.ID (e : Endian) (h : Header) : Nat :=
  e.nativeEndian.Uint32 h.bytes 0

/-- `func (h *Header) SetID(id uint32)`. -/
def Header.SetID (e : Endian) (h : Header) (id : Nat) : Header :=
  ⟨e.nativeEndian.PutUint32 h.bytes 0 id⟩

/-- `func (h Header) Opcode() uint8`. -/
def Header.Opcode (h : Header) : Nat :=
  h.bytes.getD 4 0

/-- `func (h *Header) SetOpcode(opcode uint8)`. -/
def Header.SetOpcode (h : Header) (opcode : Nat) : Header :=
  ⟨h.bytes.set 4 opcode⟩

/-- `func (h Header) Size() uint32`: a zeroed four-byte buffer receives bytes 5..7 in its
first three positions (little endian) or its last three (big endian) and is then decoded
in native order. -/
def Header.Size (e : Endian) (h : Header) : Nat :=
  let b : List Nat := [0, 0, 0, 0]
  let b := if e.isLittleEndian then copy b 0 3 (slice h.bytes 5 8)
           else copy b 1 4 (slice h.bytes 5 8)
  e.nativeEndian.Uint32 b 0

/-- `func (h *Header) SetSize(size uint32)`: the value is encoded in native order into a
four-byte buffer, of which the first three bytes (little endian) or the last three
(big endian) are copied to bytes 5..7. The function has no result. -/
def Header.SetSize (e : Endian) (h : Header) (size : Nat) : Header :=
  let b : List Nat := e.nativeEndian.PutUint32 [0, 0, 0, 0] 0 size
  if e.isLittleEndian then ⟨copy h.bytes 5 8 (slice b 0 3)⟩
  else ⟨copy h.bytes 5 8 (slice b 1 4)⟩

/-- `func (h Header) Seq() uint32`. -/
def Header.Seq (e : Endian) (h : Header) : Nat :=
  e.nativeEndian.Uint32 h.bytes 8

/-- `func (h *Header) SetSeq(seq uint32)`. -/
def Header.SetSeq (e : Endian) (h : Header) (seq : Nat) : Header :=
  ⟨e.nativeEndian.PutUint32 h.bytes 8 seq⟩

/-- `func (h Header) NumFileDesc() uint32`. -/
def Header.NumFileDesc (e : Endian) (h : Header) : Nat :=
  e.nativeEndian.Uint32 h.bytes 12

/-- `func (h *Header) SetNumFileDesc(n uint32)`. -/
def Header.SetNumFileDesc (e : Endian) (h : Header) (n : Nat) : Header :=
  ⟨e.nativeEndian.PutUint32 h.bytes 12 n⟩

/-- One call of a setter, as used to describe a sequence of calls. -/
inductive SetCall
  | ID (id : Nat)
  | Opcode (opcode : Nat)
  | Size (size : Nat)
  | Seq (seq : Nat)
  | NumFileDesc (n : Nat)
  deriving DecidableEq, Repr

/-- Performs one setter call. -/
def SetCall.run (e : Endian) (h : Header) : SetCall → Header
  | .ID id => h.SetID e id
  | .Opcode opcode => h.SetOpcode opcode
  | .Size size => h.SetSize e size
  | .Seq seq => h.SetSeq e seq
  | .NumFileDesc n => h.SetNumFileDesc e n

/-- Performs a sequence of setter calls, first to last. -/
def runCalls (e : Endian) (h : Header) (calls : List SetCall) : Header :=
  calls.foldl (SetCall.run e) h

/-- The body of `TestEncode`: the five setters applied to `&Header{}`. -/
def encode (e : Endian) (id opcode size seq numFileDesc : Nat) : Header :=
  ((((Header.zero.SetID e id).SetOpcode opcode).SetSize e size).SetSeq e seq).SetNumFileDesc
    e numFileDesc

/-- The test vector `headerBigEndian`. -/
def headerBigEndian : Header :=
  ⟨[0, 0, 0, 1, 2, 0, 0, 3, 0, 0, 0, 4, 0, 0, 0, 5]⟩

/-- The test vector `headerLittleEndian`. -/
def headerLittleEndian : Header :=
  ⟨[1, 0, 0, 0, 2, 3, 0, 0, 4, 0, 0, 0, 5, 0, 0, 0]⟩

/-- The 32-bit integer that four consecutive bytes denote in the byte order of the host. -/
def nativeWord (host : ByteOrder) (b0 b1 b2 b3 : Nat) : Nat :=
  match host with
  | .LittleEndian => b0 + 256 * b1 + 65536 * b2 + 16777216 * b3
  | .BigEndian => 16777216 * b0 + 65536 * b1 + 256 * b2 + b3

/-- The five decoded fields of a header: id, opcode, size, seq, numFileDesc. -/
def Header.fields (e : Endian) (h : Header) : Nat × Nat × Nat × Nat × Nat :=
  (h.ID e, h.Opcode, h.Size e, h.Seq e, h.NumFileDesc e)

/-- The argument of a setter call fits its parameter type (`uint32`, `uint8`), and a
size fits the 24 bits of the field. -/
def SetCall.InRange : SetCall → Prop
  | .ID id => id < 2 ^ 32
  | .Opcode opcode => opcode < 256
  | .Size size => size < 2 ^ 24
  | .Seq seq => seq < 2 ^ 32
  | .NumFileDesc n => n < 2 ^ 32

/-- The field written by a setter call, on the tuple of decoded fields. -/
def SetCall.update (fs : Nat × Nat × Nat × Nat × Nat) : SetCall → Nat × Nat × Nat × Nat × Nat
  | .ID id => (id, fs.2.1, fs.2.2.1, fs.2.2.2.1, fs.2.2.2.2)
  | .Opcode opcode => (fs.1, opcode, fs.2.2.1, fs.2.2.2.1, fs.2.2.2.2)
  | .Size size => (fs.1, fs.2.1, size, fs.2.2.2.1, fs.2.2.2.2)
  | .Seq seq => (fs.1, fs.2.1, fs.2.2.1, seq, fs.2.2.2.2)
  | .NumFileDesc n => (fs.1, fs.2.1, fs.2.2.1, fs.2.2.2.1, n)

end protocol

namespace socket

/-! ## Errors, handles and configuration -/

/-- The error values that occur in `socket.go`. -/
inductive Error
  /-- The sentinel `context.Canceled`. -/
  | Canceled
  /-- A value made by `errors.New(msg)`. -/
  | New (msg : String)
  /-- An error returned by `dialer.DialContext`; `ctxCanceled` tells whether it was caused
  by the cancellation of the context (such an error matches `context.Canceled`). -/
  | Dial (ctxCanceled : Bool) (msg : String)
  /-- A failed system call (`os.Pipe`, `unix.Poll`) with its error number. -/
  | Syscall (name : String) (errno : Nat)
  /-- An error returned by `c.Read`, end of file included. -/
  | Read (msg : String)
  deriving DecidableEq, Repr

/-- The test `errors.Is(err, context.Canceled)`. -/
def errorsIsCanceled : Error → Bool
  | .Canceled => true
  | .Dial ctxCanceled _ => ctxCanceled
  | _ => false

/-- A connected socket (`net.Conn`), identified by its file descriptor. -/
structure Conn where
  fd : Nat
  deriving DecidableEq, Repr

/-- An `*os.File`, identified by its file descriptor. -/
structure File where
  fd : Nat
  deriving DecidableEq, Repr

/-- A resource held by the worker. -/
inductive Handle
  | conn (c : Conn)
  | file (f : File)
  deriving DecidableEq, Repr

/-- The input fields of one `unix.PollFd` entry; `Revents` is the output of `unix.Poll`. -/
structure PollFd where
  Fd : Nat
  Events : Nat
  deriving DecidableEq, Repr

/-- The constant `unix.POLLIN`. -/
def POLLIN : Nat := 1

/-- The type `Config`; a callback field is `true` when it is not `nil`. The logger is
never `nil` once `New` has run. -/
structure Config where
  Filenames : List String
  HandleConnected : Bool
  HandleError : Bool
  HandleData : Bool
  deriving DecidableEq, Repr

/-- The package variable `defaultTimeout = 30 * time.Second`, in nanoseconds. -/
def defaultTimeout : Nat := 30 * 1000000000

/-- What the worker does that is visible from outside, in order. -/
inductive Event
  /-- A call `dialer.DialContext(ctx, "unix", f)`. -/
  | Dial (f : String)
  /-- A call `s.cfg.Logger.Debug(err.Error(), "filename", f)`. -/
  | LogDebug (err : Error) (f : String)
  | HandleConnected
  | HandleError (err : Error)
  | HandleData (chunk : List Nat)
  /-- A call `os.Pipe()`. -/
  | Pipe
  /-- A call `unix.Poll(fds, -1)`. -/
  | Poll (fds : List PollFd)
  /-- A call `c.Read(b)`. -/
  | Read (c : Conn)
  /-- The deferred `close(chanDone)`. -/
  | CloseChanDone
  /-- The timer `time.After(d)` of the backoff `select` is started. -/
  | After (d : Nat)
  /-- The deferred `close(s.chanClosed)`. -/
  | CloseChanClosed
  deriving DecidableEq, Repr

/-! ## `connect` -/

/-- The `for` loop of `connect` over the candidates that are left: a failed dial is
logged and the loop continues; the first successful dial returns its connection; with no
candidate left the function returns the error `unable to connect to a socket`. -/
def connectFrom (dial : String → Except Error Conn) :
    List String → Except Error Conn × List Event
  | [] => (.error (.New "unable to connect to a socket"), [])
  | f :: fs =>
    match dial f with
    | .error err =>
      let r := connectFrom dial fs
      (r.1, .Dial f :: .LogDebug err f :: r.2)
    | .ok c => (.ok c, [.Dial f])

/-- `func (s *Socket) connect(ctx context.Context) (net.Conn, error)`; `dial` is the
outcome of `dialer.DialContext` under the given context. -/
def connect (cfg : Config) (dial : String → Except Error Conn) :
    Except Error Conn × List Event :=
  connectFrom dial cfg.Filenames

/-! ## `loop` -/

/-- What the operating system does in one round of the poll loop: the result of
`unix.Poll` (an error, or the `Revents` of the entries) and the result that `c.Read`
gives if it is called (an error, or the bytes ready on the connection). `unix.Poll` fails
with an error number and `c.Read` with a network error or end of file. -/
structure Iteration where
  poll : Except Nat (List Nat)
  read : Except String (List Nat)

/-- The environment of one call of `loop`. The iterations end where the observation
ends: after the last one the worker is blocked in `unix.Poll`. The second `Revents` of a
round is what the system reports for the descriptor number that `r.Fd()` returned. -/
structure LoopEnv where
  dial : String → Except Error Conn
  pipe : Except Nat (File × File)
  iters : List Iteration

/-- The `for` loop around `unix.Poll`; `b` is the 1024 byte buffer. The result is `none`
while the worker is still blocked in `unix.Poll`. -/
def pollLoop (cfg : Config) (c : Conn) (fds : List PollFd) :
    List Nat → List Iteration → Option Error × List Event
  | _, [] => (none, [])
  | b, it :: its =>
    match it.poll with
    | .error errno => (some (.Syscall "poll" errno), [.Poll fds])
    | .ok revents =>
      if revents.getD 1 0 &&& POLLIN ≠ 0 then
        (some .Canceled, [.Poll fds])
      else
        match it.read with
        | .error msg => (some (.Read msg), [.Poll fds, .Read c])
        | .ok avail =>
          let n := min avail.length b.length
          let b1 := avail.take n ++ b.drop n
          let r := pollLoop cfg c fds b1 its
          (r.1, [.Poll fds, .Read c]
            ++ (if cfg.HandleData then [.HandleData (b1.take n)] else []) ++ r.2)

/-- The result of a call of `loop`: the returned error (`none` while the call is still
blocked in `unix.Poll`), the events in order, and the handles that the call has opened
and not closed. -/
structure LoopResult where
  err : Option Error
  trace : List Event
  held : List Handle
  deriving DecidableEq, Repr

/-- The deferred function of `loop`, run when `loop` returns `err`. -/
def deferredHandleError (cfg : Config) (err : Error) : List Event :=
  if cfg.HandleError && !errorsIsCanceled err then [.HandleError err] else []

/-- The descriptors that `loop` passes to `unix.Poll`. -/
def pollFds (r : File) : List PollFd :=
  [{ Fd := 0, Events := POLLIN }, { Fd := r.fd, Events := POLLIN }]

/-- `func (s *Socket) loop(ctx context.Context) (err error)`. -/
def loop (cfg : Config) (env : LoopEnv) : LoopResult :=
  match connect cfg env.dial with
  | (.error err, t) =>
    { err := some err, trace := t ++ deferredHandleError cfg err, held := [] }
  | (.ok c, t) =>
    let t := t ++ (if cfg.HandleConnected then [.HandleConnected] else []) ++ [.Pipe]
    match env.pipe with
    | .error errno =>
      { err := some (.Syscall "pipe" errno),
        trace := t ++ deferredHandleError cfg (.Syscall "pipe" errno), held := [.conn c] }
    | .ok (r, w) =>
      let held := [.conn c, .file r, .file w]
      match pollLoop cfg c (pollFds r) (List.replicate 1024 0) env.iters with
      | (none, t1) => { err := none, trace := t ++ t1, held := held }
      | (some err, t1) =>
        { err := some err,
          trace := t ++ t1 ++ [.CloseChanDone] ++ deferredHandleError cfg err,
          held := held }

/-! ## `run` -/

/-- The case of the backoff `select` that fires. -/
inductive Select
  /-- The case `<-time.After(defaultTimeout)`. -/
  | timer
  /-- The case `<-ctx.Done()`. -/
  | ctxDone
  deriving DecidableEq, Repr

/-- The environment of one round of `run`: that of the call of `loop`, and the case of
the `select` that fires (`none` where the observation ends during the wait). -/
structure Cycle where
  env : LoopEnv
  backoff : Option Select

/-- The states of the worker. -/
inductive State
  | Connecting
  | Connected
  | Backoff
  | Closed
  deriving DecidableEq, Repr

/-- The result of `run`: the state of the worker where the observation ends, and the
events in order. -/
structure RunResult where
  state : State
  trace : List Event
  deriving DecidableEq, Repr

/-- `func (s *Socket) run(ctx context.Context)`. -/
def run (cfg : Config) : List Cycle → RunResult
  | [] => { state := .Connecting, trace := [] }
  | cy :: cys =>
    let r := loop cfg cy.env
    match r.err with
    | none => { state := .Connected, trace := r.trace }
    | some err =>
      if errorsIsCanceled err then
        { state := .Closed, trace := r.trace ++ [.CloseChanClosed] }
      else
        match cy.backoff with
        | none => { state := .Backoff, trace := r.trace ++ [.After defaultTimeout] }
        | some .ctxDone =>
          { state := .Closed, trace := r.trace ++ [.After defaultTimeout, .CloseChanClosed] }
        | some .timer =>
          let rest := run cfg cys
          { state := rest.state, trace := r.trace ++ [.After defaultTimeout] ++ rest.trace }

/-- A round of the poll loop after which the loop goes on: `unix.Poll` succeeds without
the wakeup pipe readable and `c.Read` succeeds. -/
def Iteration.continues (it : Iteration) : Prop :=
  ∃ revents avail, it.poll = .ok revents ∧ revents.getD 1 0 &&& POLLIN = 0 ∧
    it.read = .ok avail

/-- A round of the poll loop reports the second poll entry readable, or the backoff
`select` takes `<-ctx.Done()`. -/
def Cycle.observesWakeup (cy : Cycle) : Prop :=
  (∃ it ∈ cy.env.iters, ∃ revents, it.poll = .ok revents ∧ revents.getD 1 0 &&& POLLIN ≠ 0)
    ∨ cy.backoff = some .ctxDone

/-- Number of `HandleError` calls in a trace. -/
def countHandleError (t : List Event) : Nat :=
  t.countP fun ev => match ev with
    | .HandleError _ => true
    | _ => false

/-- Number of `HandleConnected` calls in a trace. -/
def countHandleConnected (t : List Event) : Nat :=
  t.countP fun ev => match ev with
    | .HandleConnected => true
    | _ => false

/-- Number of `HandleData` calls in a trace. -/
def countHandleData (t : List Event) : Nat :=
  t.countP fun ev => match ev with
    | .HandleData _ => true
    | _ => false

/-- Number of `c.Read` calls in a trace. -/
def countRead (t : List Event) : Nat :=
  t.countP fun ev => match ev with
    | .Read _ => true
    | _ => false

/-- The candidates dialed in a trace, in order. -/
def dialed (t : List Event) : List String :=
  t.filterMap fun ev => match ev with
    | .Dial f => some f
    | _ => none

/-! ## The context, the monitor goroutine and the wakeup descriptor -/

/-- The constant `unix.POLLNVAL`. -/
def POLLNVAL : Nat := 32

/-- What the descriptor number that `loop` obtained from `r.Fd()` refers to when
`unix.Poll` looks at it. After the call `r.Fd()` the file `r` is neither used nor closed
by `loop`, so the runtime may finalize it; the finalizer closes the descriptor, and the
number is then given to the next file that the process opens. -/
inductive WakeupFd
  /-- The number still is the read end of the wakeup pipe. -/
  | pipe
  /-- The file `r` has been finalized and the number is not open. -/
  | closed
  /-- The file `r` has been finalized and the number belongs to another open file, which
  has or has not data to read. -/
  | reused (readable : Bool)
  deriving DecidableEq, Repr

/-- The monitor goroutine of `loop`,
`select { case <-chanDone: case <-ctx.Done(): w.Write([]byte{0}) }`, while the poll loop
runs; `chanDone` is closed only when `loop` returns, so until then the goroutine can only
take the second case. The result is what it has written to `w`, given whether
`ctx.Done()` is closed and whether the goroutine has run since. -/
def monitor (ctxDone scheduled : Bool) : List Nat :=
  if ctxDone && scheduled then [0] else []

/-- The `Revents` that `unix.Poll` reports for the second entry, `Events: POLLIN` on the
number from `r.Fd()`, given what has been written to `w`. -/
def wakeupRevents (written : List Nat) : WakeupFd → Nat
  | .pipe => if written.isEmpty then 0 else POLLIN
  | .closed => POLLNVAL
  | .reused readable => if readable then POLLIN else 0

/-- One round of the poll loop with the state of the context: whether `ctx.Done()` is
closed, whether the monitor goroutine has run, what the wakeup number refers to, the
result of `unix.Poll` (an error number, or the `Revents` of the first entry) and the
result that `c.Read` gives if it is called. -/
structure Round where
  ctxDone : Bool
  scheduled : Bool
  wakeup : WakeupFd
  poll : Except Nat Nat
  read : Except String (List Nat)

/-- What `loop` sees of a round. -/
def Round.toIteration (rd : Round) : Iteration :=
  { poll := match rd.poll with
      | .error errno => .error errno
      | .ok revents0 =>
        .ok [revents0, wakeupRevents (monitor rd.ctxDone rd.scheduled) rd.wakeup]
    read := rd.read }

/-- The backoff `select` of `run`: the case `<-ctx.Done()` can be taken only when the
context is cancelled and the case `<-time.After(defaultTimeout)` only when the timer has
fired; with both ready the runtime picks one (`pick`), with none the worker waits. -/
def backoffSelect (ctxDone timerFired : Bool) (pick : Select) : Option Select :=
  match ctxDone, timerFired with
  | false, false => none
  | false, true => some .timer
  | true, false => some .ctxDone
  | true, true => some pick

/-- One round of `run` with the state of the context: the dial outcomes, the outcome of
`os.Pipe`, the rounds of the poll loop, and for the backoff wait whether the context is
cancelled, whether the timer has fired and the pick of the runtime. -/
structure Attempt where
  dial : String → Except Error Conn
  pipe : Except Nat (File × File)
  rounds : List Round
  ctxDoneInBackoff : Bool
  timerFired : Bool
  pick : Select

/-- What `run` sees of an attempt. -/
def Attempt.toCycle (a : Attempt) : Cycle :=
  { env := { dial := a.dial, pipe := a.pipe, iters := a.rounds.map Round.toIteration }
    backoff := backoffSelect a.ctxDoneInBackoff a.timerFired a.pick }

/-- The context is cancelled at some point of the attempt. -/
def Attempt.ctxCancelled (a : Attempt) : Prop :=
  (∃ rd ∈ a.rounds, rd.ctxDone = true) ∨ a.ctxDoneInBackoff = true

/-! ## Concrete scenarios -/

/-- A configuration with one candidate and all three callbacks set. -/
def oneCandidate : Config :=
  { Filenames := ["/run/user/1000/pipewire-0"], HandleConnected := true,
    HandleError := true, HandleData := true }

/-- The context is cancelled while `connect` is dialing: the dial fails with an error
that matches `context.Canceled`. -/
def cancelledWhileDialing : LoopEnv :=
  { dial := fun _ => .error (.Dial true "dial unix: operation was canceled"),
    pipe := .ok (⟨4⟩, ⟨5⟩),
    iters := [] }

/-- The dial succeeds with descriptor 3, the pipe gets descriptors 4 and 5, three
bytes arrive, and in the next round both the data and the wakeup pipe are reported
ready. -/
def cancelledWhileReading : LoopEnv :=
  { dial := fun _ => .ok ⟨3⟩,
    pipe := .ok (⟨4⟩, ⟨5⟩),
    iters := [{ poll := .ok [1, 0], read := .ok [10, 20, 30] },
              { poll := .ok [1, 1], read := .ok [40] }] }

/-- Two candidates, of which only the second accepts connections. -/
def twoCandidates : Config :=
  { Filenames := ["/run/a/pipewire-0", "/run/b/pipewire-0"], HandleConnected := true,
    HandleError := true, HandleData := true }

/-- The dial outcomes for `twoCandidates`. -/
def secondAccepts (f : String) : Except Error Conn :=
  if f = "/run/b/pipewire-0" then .ok ⟨3⟩ else .error (.Dial false "connection refused")

/-- No candidate accepts connections and the context is not cancelled. -/
def allRefuse : LoopEnv :=
  { dial := fun _ => .error (.Dial false "connection refused"),
    pipe := .ok (⟨4⟩, ⟨5⟩),
    iters := [] }

/-- The context is never cancelled. The dial succeeds with descriptor 3 and the pipe gets
descriptors 4 and 5; three bytes arrive; then `r` is finalized, another file of the
process is opened on number 4 and has data to read. -/
def wakeupReused : Attempt :=
  { dial := fun _ => .ok ⟨3⟩,
    pipe := .ok (⟨4⟩, ⟨5⟩),
    rounds := [{ ctxDone := false, scheduled := true, wakeup := .pipe, poll := .ok 1,
                 read := .ok [10, 20, 30] },
               { ctxDone := false, scheduled := true, wakeup := .reused true, poll := .ok 0,
                 read := .ok [] }],
    ctxDoneInBackoff := false, timerFired := false, pick := .timer }

end socket

end Pwnative

/-! # Theorems -/

namespace Pwnative

namespace protocol

/-! ## Arithmetic of the byte orders -/

theorem or_shl_bytes (a b c d : Nat) (ha : a < 256) (hb : b < 256) (hc : c < 256) :
    a ||| (b <<< 8) ||| (c <<< 16) ||| (d <<< 24)
      = a + 256 * b + 65536 * c + 16777216 * d := by
  have h1 : a ||| (b <<< 8) = 256 * b + a := by
    rw [Nat.or_comm, Nat.shiftLeft_eq, Nat.mul_comm b]
    exact (Nat.mul_add_lt_is_or (i := 8) ha b).symm
  have h2 : (256 * b + a) ||| (c <<< 16) = 65536 * c + (256 * b + a) := by
    rw [Nat.or_comm, Nat.shiftLeft_eq, Nat.mul_comm c]
    exact (Nat.mul_add_lt_is_or (i := 16) (by omega) c).symm
  have h3 : (65536 * c + (256 * b + a)) ||| (d <<< 24)
      = 16777216 * d + (65536 * c + (256 * b + a)) := by
    rw [Nat.or_comm, Nat.shiftLeft_eq, Nat.mul_comm d]
    exact (Nat.mul_add_lt_is_or (i := 24) (by omega) d).symm
  rw [h1, h2, h3]; omega

theorem getD_lt {l : List Nat} (hl : ∀ x ∈ l, x < 256) (i : Nat) : l.getD i 0 < 256 := by
  rw [List.getD_eq_getElem?_getD]
  cases h : l[i]? with
  | none => simp
  | some x => simpa using hl x (List.getElem?_mem h)

/-- Little endian decoding is the positional sum with the first byte least significant. -/
theorem Uint32_little (b : List Nat) (hb : ∀ x ∈ b, x < 256) (off : Nat) :
    ByteOrder.LittleEndian.Uint32 b off
      = b.getD off 0 + 256 * b.getD (off + 1) 0 + 65536 * b.getD (off + 2) 0
        + 16777216 * b.getD (off + 3) 0 := by
  simp only [ByteOrder.Uint32]
  exact or_shl_bytes _ _ _ _ (getD_lt hb _) (getD_lt hb _) (getD_lt hb _)

/-- Big endian decoding is the positional sum with the first byte most significant. -/
theorem Uint32_big (b : List Nat) (hb : ∀ x ∈ b, x < 256) (off : Nat) :
    ByteOrder.BigEndian.Uint32 b off
      = 16777216 * b.getD off 0 + 65536 * b.getD (off + 1) 0 + 256 * b.getD (off + 2) 0
        + b.getD (off + 3) 0 := by
  simp only [ByteOrder.Uint32]
  rw [or_shl_bytes _ _ _ _ (getD_lt hb _) (getD_lt hb _) (getD_lt hb _)]
  omega

theorem init_little : init .LittleEndian = ⟨true, .LittleEndian⟩ := by decide

theorem init_big : init .BigEndian = ⟨false, .BigEndian⟩ := by decide

/-- A valid header is a list of sixteen bytes. -/
theorem Header.Valid.exists_bytes {h : Header} (hv : h.Valid) :
    ∃ a0 a1 a2 a3 a4 a5 a6 a7 a8 a9 a10 a11 a12 a13 a14 a15 : Nat,
      h = ⟨[a0, a1, a2, a3, a4, a5, a6, a7, a8, a9, a10, a11, a12, a13, a14, a15]⟩ := by
  obtain ⟨l⟩ := h
  obtain ⟨hl, -⟩ := hv
  simp only at hl
  rcases l with _ | ⟨a0, _ | ⟨a1, _ | ⟨a2, _ | ⟨a3, _ | ⟨a4, _ | ⟨a5, _ | ⟨a6, _ | ⟨a7, _ | ⟨a8,
    _ | ⟨a9, _ | ⟨a10, _ | ⟨a11, _ | ⟨a12, _ | ⟨a13, _ | ⟨a14, _ | ⟨a15, _ | ⟨a16,
    l⟩⟩⟩⟩⟩⟩⟩⟩⟩⟩⟩⟩⟩⟩⟩⟩⟩ <;> simp at hl
  exact ⟨_, _, _, _, _, _, _, _, _, _, _, _, _, _, _, _, rfl⟩

theorem nativeEndian_Uint32 (host : ByteOrder) (b : List Nat) (hb : ∀ x ∈ b, x < 256)
    (off : Nat) :
    (init host).nativeEndian.Uint32 b off
      = nativeWord host (b.getD off 0) (b.getD (off + 1) 0) (b.getD (off + 2) 0)
          (b.getD (off + 3) 0) := by
  cases host
  · rw [init_little]; exact Uint32_little b hb off
  · rw [init_big]; exact Uint32_big b hb off

theorem Size_eq (host : ByteOrder) (h : Header) (hv : h.Valid) :
    h.Size (init host) = match host with
      | .LittleEndian => h.bytes.getD 5 0 + 256 * h.bytes.getD 6 0 + 65536 * h.bytes.getD 7 0
      | .BigEndian => 65536 * h.bytes.getD 5 0 + 256 * h.bytes.getD 6 0 + h.bytes.getD 7 0 := by
  obtain ⟨a0, a1, a2, a3, a4, a5, a6, a7, a8, a9, a10, a11, a12, a13, a14, a15, rfl⟩ :=
    hv.exists_bytes
  have hb := hv.2
  simp only [List.mem_cons, List.mem_singleton, forall_eq_or_imp, forall_eq, List.not_mem_nil,
    false_implies, implies_true, and_true] at hb
  cases host
  · have h4 : ∀ x ∈ [a5, a6, a7, 0], x < 256 := by simp; omega
    simp only [Header.Size, init_little, copy, slice]
    simp only [if_true, List.drop, List.take, Nat.reduceSub, List.length, Nat.reduceAdd, Nat.min_self,
      List.nil_append, List.cons_append, Nat.zero_add]
    rw [Uint32_little _ h4]
    simp
  · have h4 : ∀ x ∈ [0, a5, a6, a7], x < 256 := by simp; omega
    simp only [Header.Size, init_big, copy, slice]
    simp only [if_false, Bool.false_eq_true, List.drop, List.take, Nat.reduceSub, List.length, Nat.reduceAdd, Nat.min_self,
      List.nil_append, List.cons_append, Nat.zero_add]
    rw [Uint32_big _ h4]
    simp

theorem SetCall.run_valid (host : ByteOrder) (h : Header) (hv : h.Valid) (c : SetCall)
    (hc : c.InRange) : (SetCall.run (init host) h c).Valid := by
  obtain ⟨a0, a1, a2, a3, a4, a5, a6, a7, a8, a9, a10, a11, a12, a13, a14, a15, rfl⟩ :=
    hv.exists_bytes
  have hb := hv.2
  simp only [List.mem_cons, List.mem_singleton, forall_eq_or_imp, forall_eq, List.not_mem_nil,
    false_implies, implies_true, and_true] at hb
  cases host <;> cases c <;>
    simp [SetCall.run, init_little, init_big, Header.SetID, Header.SetOpcode, Header.SetSize,
      Header.SetSeq, Header.SetNumFileDesc, ByteOrder.PutUint32, copy, slice, Header.Valid,
      SetCall.InRange] at hc ⊢ <;> omega

theorem SetCall.run_fields (host : ByteOrder) (h : Header) (hv : h.Valid) (c : SetCall)
    (hc : c.InRange) :
    (SetCall.run (init host) h c).fields (init host) = SetCall.update (h.fields (init host)) c := by
  have hv1 := SetCall.run_valid host h hv c hc
  simp only [Header.fields, Header.ID, Header.Seq, Header.NumFileDesc]
  rw [Size_eq host _ hv1, Size_eq host _ hv]
  simp only [nativeEndian_Uint32 host _ hv1.2, nativeEndian_Uint32 host _ hv.2]
  clear hv1
  obtain ⟨a0, a1, a2, a3, a4, a5, a6, a7, a8, a9, a10, a11, a12, a13, a14, a15, rfl⟩ :=
    hv.exists_bytes
  have hb := hv.2
  simp only [List.mem_cons, List.mem_singleton, forall_eq_or_imp, forall_eq, List.not_mem_nil,
    false_implies, implies_true, and_true] at hb
  cases host <;> cases c <;>
    simp [SetCall.run, SetCall.update, init_little, init_big, Header.SetID, Header.SetOpcode,
      Header.SetSize, Header.SetSeq, Header.SetNumFileDesc, ByteOrder.PutUint32, copy, slice,
      nativeWord, Header.Opcode, SetCall.InRange, Nat.shiftRight_eq_div_pow] at hc ⊢ <;> omega

theorem runCalls_fields (host : ByteOrder) (calls : List SetCall) :
    ∀ h : Header, h.Valid → (∀ c ∈ calls, c.InRange) →
      (runCalls (init host) h calls).Valid ∧
      (runCalls (init host) h calls).fields (init host)
        = calls.foldl SetCall.update (h.fields (init host)) := by
  induction calls with
  | nil => intro h hv _; exact ⟨hv, rfl⟩
  | cons c cs ih =>
    intro h hv hc
    have hc1 : c.InRange := hc c (List.mem_cons_self _ _)
    have h1 := ih (SetCall.run (init host) h c) (SetCall.run_valid host h hv c hc1)
      (fun x hx => hc x (List.mem_cons_of_mem _ hx))
    simp only [runCalls, List.foldl_cons] at h1 ⊢
    rw [SetCall.run_fields host h hv c hc1] at h1
    exact h1

theorem update_comm (id opcode size seq n : Nat) :
    ∀ x ∈ [SetCall.ID id, .Opcode opcode, .Size size, .Seq seq, .NumFileDesc n],
    ∀ y ∈ [SetCall.ID id, .Opcode opcode, .Size size, .Seq seq, .NumFileDesc n],
    ∀ z : Nat × Nat × Nat × Nat × Nat,
      SetCall.update (SetCall.update z x) y = SetCall.update (SetCall.update z y) x := by
  intro x hx y hy z
  simp only [List.mem_cons, List.mem_singleton, List.not_mem_nil, or_false] at hx hy
  rcases hx with rfl | rfl | rfl | rfl | rfl <;> rcases hy with rfl | rfl | rfl | rfl | rfl <;> rfl

/-- C1: on a little endian and on a big endian host, from any header, the five setters
called once each in any order with values of their parameter types and a size below
`2 ^ 24` leave a header from which the five getters return exactly the values set. -/
theorem header_round_trip (host : ByteOrder) (h : Header) (hv : h.Valid)
    (id opcode size seq n : Nat) (hid : id < 2 ^ 32) (hop : opcode < 256)
    (hsize : size < 2 ^ 24) (hseq : seq < 2 ^ 32) (hn : n < 2 ^ 32)
    (calls : List SetCall)
    (hcalls : calls.Perm [.ID id, .Opcode opcode, .Size size, .Seq seq, .NumFileDesc n]) :
    (runCalls (init host) h calls).ID (init host) = id ∧
    (runCalls (init host) h calls).Opcode = opcode ∧
    (runCalls (init host) h calls).Size (init host) = size ∧
    (runCalls (init host) h calls).Seq (init host) = seq ∧
    (runCalls (init host) h calls).NumFileDesc (init host) = n := by
  have hr : ∀ c ∈ calls, c.InRange := by
    intro c hc
    have := hcalls.mem_iff.mp hc
    simp only [List.mem_cons, List.mem_singleton, List.not_mem_nil, or_false] at this
    rcases this with rfl | rfl | rfl | rfl | rfl <;> assumption
  have h1 := (runCalls_fields host calls h hv hr).2
  have h2 := List.Perm.foldl_eq' hcalls.symm (update_comm id opcode size seq n)
    (h.fields (init host))
  rw [← h2] at h1
  simp only [List.foldl_cons, List.foldl_nil, SetCall.update, Header.fields, Prod.mk.injEq] at h1
  exact h1

/-- Witness of C1: the order `Seq, Size, NumFileDesc, ID, Opcode` on a big endian host,
starting from the little endian test vector. -/
theorem header_round_trip_witness :
    (runCalls (init .BigEndian) headerLittleEndian
        [.Seq 4, .Size 16777215, .NumFileDesc 5, .ID 4294967295, .Opcode 255]).ID
        (init .BigEndian) = 4294967295 ∧
    (runCalls (init .BigEndian) headerLittleEndian
        [.Seq 4, .Size 16777215, .NumFileDesc 5, .ID 4294967295, .Opcode 255]).Opcode = 255 ∧
    (runCalls (init .BigEndian) headerLittleEndian
        [.Seq 4, .Size 16777215, .NumFileDesc 5, .ID 4294967295, .Opcode 255]).Size
        (init .BigEndian) = 16777215 ∧
    (runCalls (init .BigEndian) headerLittleEndian
        [.Seq 4, .Size 16777215, .NumFileDesc 5, .ID 4294967295, .Opcode 255]).Seq
        (init .BigEndian) = 4 ∧
    (runCalls (init .BigEndian) headerLittleEndian
        [.Seq 4, .Size 16777215, .NumFileDesc 5, .ID 4294967295, .Opcode 255]).NumFileDesc
        (init .BigEndian) = 5 :=
  header_round_trip .BigEndian headerLittleEndian (by decide) 4294967295 255 16777215 4 5
    (by decide) (by decide) (by decide) (by decide) (by decide) _ (by decide)

/-- C2: encoding into a zero header gives, on a little endian host, the bytes of id, then
the opcode, the three bytes of size, the bytes of seq and of numFileDesc, each least
significant byte first, and on a big endian host the same fields most significant byte
first; the fields 1, 2, 3, 4, 5 give the two test vectors. -/
theorem header_encode_bytes (id opcode size seq n : Nat) (hid : id < 2 ^ 32)
    (hop : opcode < 256) (hsize : size < 2 ^ 24) (hseq : seq < 2 ^ 32) (hn : n < 2 ^ 32) :
    encode (init .LittleEndian) id opcode size seq n
      = ⟨[id % 256, id / 256 % 256, id / 65536 % 256, id / 16777216,
          opcode,
          size % 256, size / 256 % 256, size / 65536,
          seq % 256, seq / 256 % 256, seq / 65536 % 256, seq / 16777216,
          n % 256, n / 256 % 256, n / 65536 % 256, n / 16777216]⟩ ∧
    encode (init .BigEndian) id opcode size seq n
      = ⟨[id / 16777216, id / 65536 % 256, id / 256 % 256, id % 256,
          opcode,
          size / 65536, size / 256 % 256, size % 256,
          seq / 16777216, seq / 65536 % 256, seq / 256 % 256, seq % 256,
          n / 16777216, n / 65536 % 256, n / 256 % 256, n % 256]⟩ ∧
    (encode (init .LittleEndian) id opcode size seq n).Valid ∧
    (encode (init .BigEndian) id opcode size seq n).Valid ∧
    encode (init .LittleEndian) 1 2 3 4 5
      = ⟨[1, 0, 0, 0, 2, 3, 0, 0, 4, 0, 0, 0, 5, 0, 0, 0]⟩ ∧
    encode (init .BigEndian) 1 2 3 4 5
      = ⟨[0, 0, 0, 1, 2, 0, 0, 3, 0, 0, 0, 4, 0, 0, 0, 5]⟩ ∧
    encode (init .LittleEndian) 1 2 3 4 5 = headerLittleEndian ∧
    encode (init .BigEndian) 1 2 3 4 5 = headerBigEndian := by
  have e1 : id / 16777216 % 256 = id / 16777216 := by omega
  have e2 : size / 65536 % 256 = size / 65536 := by omega
  have e3 : seq / 16777216 % 256 = seq / 16777216 := by omega
  have e4 : n / 16777216 % 256 = n / 16777216 := by omega
  have hL : encode (init .LittleEndian) id opcode size seq n
      = ⟨[id % 256, id / 256 % 256, id / 65536 % 256, id / 16777216,
          opcode,
          size % 256, size / 256 % 256, size / 65536,
          seq % 256, seq / 256 % 256, seq / 65536 % 256, seq / 16777216,
          n % 256, n / 256 % 256, n / 65536 % 256, n / 16777216]⟩ := by
    simp [encode, init_little, Header.zero, Header.SetID, Header.SetOpcode, Header.SetSize,
      Header.SetSeq, Header.SetNumFileDesc, ByteOrder.PutUint32, copy, slice,
      Nat.shiftRight_eq_div_pow, List.replicate, e1, e2, e3, e4]
  have hB : encode (init .BigEndian) id opcode size seq n
      = ⟨[id / 16777216, id / 65536 % 256, id / 256 % 256, id % 256,
          opcode,
          size / 65536, size / 256 % 256, size % 256,
          seq / 16777216, seq / 65536 % 256, seq / 256 % 256, seq % 256,
          n / 16777216, n / 65536 % 256, n / 256 % 256, n % 256]⟩ := by
    simp [encode, init_big, Header.zero, Header.SetID, Header.SetOpcode, Header.SetSize,
      Header.SetSeq, Header.SetNumFileDesc, ByteOrder.PutUint32, copy, slice,
      Nat.shiftRight_eq_div_pow, List.replicate, e1, e2, e3, e4]
  refine ⟨hL, hB, ?_, ?_, by decide, by decide, by decide, by decide⟩
  · rw [hL]; simp [Header.Valid]; omega
  · rw [hB]; simp [Header.Valid]; omega

/-- Witness of C2 at the largest field values. -/
theorem header_encode_bytes_witness :
    encode (init .LittleEndian) 4294967295 255 16777215 0 66051
      = ⟨[4294967295 % 256, 4294967295 / 256 % 256, 4294967295 / 65536 % 256,
          4294967295 / 16777216,
          255,
          16777215 % 256, 16777215 / 256 % 256, 16777215 / 65536,
          0 % 256, 0 / 256 % 256, 0 / 65536 % 256, 0 / 16777216,
          66051 % 256, 66051 / 256 % 256, 66051 / 65536 % 256, 66051 / 16777216]⟩ :=
  (header_encode_bytes 4294967295 255 16777215 0 66051 (by decide) (by decide) (by decide)
    (by decide) (by decide)).1

/-- C3, counterexample: `SetSize(16777216)` returns normally on both kinds of host; the
header it leaves is the one that `SetSize(0)` leaves, and `Size()` returns
`16777216 % 2 ^ 24 = 0`. -/
theorem setSize_overflow_truncates :
    (Header.zero.SetSize (init .LittleEndian) 16777216).Size (init .LittleEndian)
      = 16777216 % 2 ^ 24 ∧
    Header.zero.SetSize (init .LittleEndian) 16777216
      = Header.zero.SetSize (init .LittleEndian) 0 ∧
    (Header.zero.SetSize (init .BigEndian) 16777216).Size (init .BigEndian)
      = 16777216 % 2 ^ 24 ∧
    Header.zero.SetSize (init .BigEndian) 16777216
      = Header.zero.SetSize (init .BigEndian) 0 := by
  decide

/-- C3, amended: `SetSize` has no error result and checks no range; for every size and
every header it stores the low 24 bits in bytes 5..7, so that `Size()` returns
`size % 2 ^ 24` (the size itself when it is below `2 ^ 24`), the header is the one that
the truncated size gives, and the other four fields keep their values. -/
theorem setSize_stores_low_24_bits (host : ByteOrder) (h : Header) (hv : h.Valid)
    (size : Nat) :
    (h.SetSize (init host) size).Valid ∧
    (h.SetSize (init host) size).Size (init host) = size % 2 ^ 24 ∧
    h.SetSize (init host) size = h.SetSize (init host) (size % 2 ^ 24) ∧
    (size < 2 ^ 24 → (h.SetSize (init host) size).Size (init host) = size) ∧
    (h.SetSize (init host) size).ID (init host) = h.ID (init host) ∧
    (h.SetSize (init host) size).Opcode = h.Opcode ∧
    (h.SetSize (init host) size).Seq (init host) = h.Seq (init host) ∧
    (h.SetSize (init host) size).NumFileDesc (init host) = h.NumFileDesc (init host) := by
  have hlt : size % 2 ^ 24 < 2 ^ 24 := Nat.mod_lt _ (by decide)
  have heq : h.SetSize (init host) size = h.SetSize (init host) (size % 2 ^ 24) := by
    cases host <;>
      simp [init_little, init_big, Header.SetSize, ByteOrder.PutUint32, copy, slice,
        Nat.shiftRight_eq_div_pow] <;> omega
  have hv1 := SetCall.run_valid host h hv (.Size (size % 2 ^ 24)) hlt
  have hf := SetCall.run_fields host h hv (.Size (size % 2 ^ 24)) hlt
  simp only [SetCall.run, SetCall.update, Header.fields, Prod.mk.injEq] at hv1 hf
  rw [heq]
  refine ⟨hv1, hf.2.2.1, rfl, ?_, hf.1, hf.2.1, hf.2.2.2.1, hf.2.2.2.2⟩
  intro hs
  rw [hf.2.2.1]
  exact Nat.mod_eq_of_lt hs

/-- Witness of the amended C3 at `size = 2 ^ 24 + 3` on a big endian host. -/
theorem setSize_stores_low_24_bits_witness :
    (headerBigEndian.SetSize (init .BigEndian) 16777219).Size (init .BigEndian)
      = 16777219 % 2 ^ 24 :=
  (setSize_stores_low_24_bits .BigEndian headerBigEndian (by decide) 16777219).2.1

/-- Header with byte 4 replaced. -/
theorem Size_set_opcode (host : ByteOrder) (h : Header) (hv : h.Valid) (v : Nat) :
    (⟨h.bytes.set 4 v⟩ : Header).Size (init host) = h.Size (init host) := by
  obtain ⟨a0, a1, a2, a3, a4, a5, a6, a7, a8, a9, a10, a11, a12, a13, a14, a15, rfl⟩ :=
    hv.exists_bytes
  rfl

/-- C4: for every 16-byte header, `ID`, `Seq` and `NumFileDesc` are the native-order
32-bit integers at offsets 0, 8 and 12, `Opcode` is byte 4, and `Size` is the 24-bit
value of bytes 5..7, byte 5 least significant on a little endian host and most
significant on a big endian host; `Size` is below `2 ^ 24` and does not depend on byte 4;
the two test vectors decode to 1, 2, 3, 4, 5. -/
theorem header_decode_layout (host : ByteOrder) (h : Header) (hv : h.Valid) :
    h.ID (init host) = nativeWord host (h.bytes.getD 0 0) (h.bytes.getD 1 0)
      (h.bytes.getD 2 0) (h.bytes.getD 3 0) ∧
    h.Seq (init host) = nativeWord host (h.bytes.getD 8 0) (h.bytes.getD 9 0)
      (h.bytes.getD 10 0) (h.bytes.getD 11 0) ∧
    h.NumFileDesc (init host) = nativeWord host (h.bytes.getD 12 0) (h.bytes.getD 13 0)
      (h.bytes.getD 14 0) (h.bytes.getD 15 0) ∧
    h.Opcode = h.bytes.getD 4 0 ∧
    (host = .LittleEndian → h.Size (init host)
      = h.bytes.getD 5 0 + 256 * h.bytes.getD 6 0 + 65536 * h.bytes.getD 7 0) ∧
    (host = .BigEndian → h.Size (init host)
      = 65536 * h.bytes.getD 5 0 + 256 * h.bytes.getD 6 0 + h.bytes.getD 7 0) ∧
    h.Size (init host) < 2 ^ 24 ∧
    (∀ v : Nat, (⟨h.bytes.set 4 v⟩ : Header).Size (init host) = h.Size (init host)) ∧
    headerLittleEndian.fields (init .LittleEndian) = (1, 2, 3, 4, 5) ∧
    headerBigEndian.fields (init .BigEndian) = (1, 2, 3, 4, 5) := by
  have hs := Size_eq host h hv
  have h5 := getD_lt hv.2 5
  have h6 := getD_lt hv.2 6
  have h7 := getD_lt hv.2 7
  refine ⟨nativeEndian_Uint32 host _ hv.2 0, nativeEndian_Uint32 host _ hv.2 8,
    nativeEndian_Uint32 host _ hv.2 12, rfl, ?_, ?_, ?_, Size_set_opcode host h hv,
    by decide, by decide⟩
  · rintro rfl; exact hs
  · rintro rfl; exact hs
  · rw [hs]; cases host <;> simp only <;> omega

/-- Witness of C4: the big endian test vector read on a little endian host. -/
theorem header_decode_layout_witness :
    headerBigEndian.Size (init .LittleEndian) < 2 ^ 24 ∧
    headerBigEndian.ID (init .LittleEndian) = nativeWord .LittleEndian 0 0 0 1 :=
  ⟨(header_decode_layout .LittleEndian headerBigEndian (by decide)).2.2.2.2.2.2.1,
    (header_decode_layout .LittleEndian headerBigEndian (by decide)).1⟩

end protocol

namespace socket

/-! ## `connect` -/

theorem connectFrom_ok (dial : String → Except Error Conn) (fs : List String) (c : Conn)
    (h : (connectFrom dial fs).1 = .ok c) :
    ∃ pre f post, fs = pre ++ f :: post ∧ (∀ g ∈ pre, ∃ e, dial g = .error e) ∧
      dial f = .ok c ∧ dialed (connectFrom dial fs).2 = pre ++ [f] := by
  induction fs with
  | nil => simp [connectFrom] at h
  | cons f fs ih =>
    cases hd : dial f with
    | error e =>
      simp only [connectFrom, hd] at h ⊢
      obtain ⟨pre, g, post, h1, h2, h3, h4⟩ := ih h
      refine ⟨f :: pre, g, post, by rw [h1]; rfl, ?_, h3, ?_⟩
      · intro x hx
        rcases List.mem_cons.mp hx with rfl | hx
        · exact ⟨e, hd⟩
        · exact h2 x hx
      · simp only [dialed, List.filterMap_cons, List.cons_append] at h4 ⊢
        rw [h4]
    | ok c1 =>
      simp only [connectFrom, hd, Except.ok.injEq] at h ⊢
      subst h
      exact ⟨[], f, fs, rfl, by simp, hd, rfl⟩

theorem connectFrom_error (dial : String → Except Error Conn) (fs : List String) (e : Error)
    (h : (connectFrom dial fs).1 = .error e) :
    e = .New "unable to connect to a socket" ∧ (∀ g ∈ fs, ∃ e1, dial g = .error e1) ∧
      dialed (connectFrom dial fs).2 = fs := by
  induction fs with
  | nil =>
    simp only [connectFrom, Except.error.injEq] at h
    exact ⟨h.symm, by simp, rfl⟩
  | cons f fs ih =>
    cases hd : dial f with
    | error e1 =>
      simp only [connectFrom, hd] at h ⊢
      obtain ⟨h1, h2, h3⟩ := ih h
      refine ⟨h1, ?_, ?_⟩
      · intro x hx
        rcases List.mem_cons.mp hx with rfl | hx
        · exact ⟨e1, hd⟩
        · exact h2 x hx
      · simp only [dialed, List.filterMap_cons] at h3 ⊢
        rw [h3]
    | ok c1 => simp [connectFrom, hd] at h

theorem connectFrom_all_fail (dial : String → Except Error Conn) (fs : List String)
    (h : ∀ g ∈ fs, ∃ e1, dial g = .error e1) :
    (connectFrom dial fs).1 = .error (.New "unable to connect to a socket") := by
  induction fs with
  | nil => rfl
  | cons f fs ih =>
    obtain ⟨e1, hd⟩ := h f (List.mem_cons_self _ _)
    simp only [connectFrom, hd]
    exact ih (fun g hg => h g (List.mem_cons_of_mem _ hg))

/-- The events of `connect` are dials and log entries. -/
theorem connectFrom_events (dial : String → Except Error Conn) (fs : List String) :
    ∀ ev ∈ (connectFrom dial fs).2, (∃ f, ev = .Dial f) ∨ (∃ e f, ev = .LogDebug e f) := by
  induction fs with
  | nil => simp [connectFrom]
  | cons f fs ih =>
    cases hd : dial f with
    | error e1 =>
      simp only [connectFrom, hd, List.mem_cons]
      rintro ev (rfl | rfl | h)
      · exact .inl ⟨f, rfl⟩
      · exact .inr ⟨e1, f, rfl⟩
      · exact ih ev h
    | ok c1 =>
      simp only [connectFrom, hd, List.mem_singleton]
      rintro ev rfl
      exact .inl ⟨f, rfl⟩

/-! ## Traces of `loop` -/

theorem countHandleError_connectFrom (dial : String → Except Error Conn) (fs : List String) :
    countHandleError (connectFrom dial fs).2 = 0 := by
  unfold countHandleError
  rw [List.countP_eq_zero]
  intro ev hev
  rcases connectFrom_events dial fs ev hev with ⟨f, rfl⟩ | ⟨e, f, rfl⟩ <;> simp

theorem countHandleConnected_connectFrom (dial : String → Except Error Conn)
    (fs : List String) : countHandleConnected (connectFrom dial fs).2 = 0 := by
  unfold countHandleConnected
  rw [List.countP_eq_zero]
  intro ev hev
  rcases connectFrom_events dial fs ev hev with ⟨f, rfl⟩ | ⟨e, f, rfl⟩ <;> simp

/-- The events of the poll loop are polls of `fds`, reads of `c` and, when the callback
is set, deliveries of at most `len(b)` bytes. -/
theorem pollLoop_events (cfg : Config) (c : Conn) (fds : List PollFd)
    (its : List Iteration) :
    ∀ b : List Nat, ∀ ev ∈ (pollLoop cfg c fds b its).2,
      ev = .Poll fds ∨ ev = .Read c ∨
        ∃ chunk, ev = .HandleData chunk ∧ chunk.length ≤ b.length ∧ cfg.HandleData = true := by
  induction its with
  | nil => intro b ev hev; simp [pollLoop] at hev
  | cons it its ih =>
    intro b ev hev
    unfold pollLoop at hev
    cases hp : it.poll with
    | error errno =>
      simp only [hp, List.mem_singleton] at hev
      exact .inl hev
    | ok revents =>
      simp only [hp] at hev
      split at hev
      · simp only [List.mem_singleton] at hev
        exact .inl hev
      · cases hr : it.read with
        | error msg =>
          simp only [hr, List.mem_cons, List.mem_singleton, List.not_mem_nil, or_false] at hev
          rcases hev with h | h
          · exact .inl h
          · exact .inr (.inl h)
        | ok avail =>
          simp only [hr, List.mem_append, List.mem_cons, List.mem_singleton,
            List.not_mem_nil, or_false] at hev
          have hlen : (List.take (min avail.length b.length) avail
              ++ List.drop (min avail.length b.length) b).length = b.length := by
            simp only [List.length_append, List.length_take, List.length_drop]
            omega
          rcases hev with ((h | h) | h) | h
          · exact .inl h
          · exact .inr (.inl h)
          · split at h
            · rename_i hd
              simp only [List.mem_singleton] at h
              refine .inr (.inr ⟨_, h, ?_, hd⟩)
              simp only [List.length_take, List.length_append, List.length_drop]
              omega
            · simp at h
          · rcases ih _ ev h with h1 | h1 | ⟨chunk, h1, h2, h3⟩
            · exact .inl h1
            · exact .inr (.inl h1)
            · exact .inr (.inr ⟨chunk, h1, by rw [hlen] at h2; exact h2, h3⟩)

theorem countHandleError_pollLoop (cfg : Config) (c : Conn) (fds : List PollFd)
    (b : List Nat) (its : List Iteration) :
    countHandleError (pollLoop cfg c fds b its).2 = 0 := by
  unfold countHandleError
  rw [List.countP_eq_zero]
  intro ev hev
  rcases pollLoop_events cfg c fds its b ev hev with rfl | rfl | ⟨chunk, rfl, -, -⟩ <;> simp

theorem countHandleConnected_pollLoop (cfg : Config) (c : Conn) (fds : List PollFd)
    (b : List Nat) (its : List Iteration) :
    countHandleConnected (pollLoop cfg c fds b its).2 = 0 := by
  unfold countHandleConnected
  rw [List.countP_eq_zero]
  intro ev hev
  rcases pollLoop_events cfg c fds its b ev hev with rfl | rfl | ⟨chunk, rfl, -, -⟩ <;> simp

theorem countHandleError_deferred (cfg : Config) (e : Error) :
    countHandleError (deferredHandleError cfg e)
      = if cfg.HandleError && !errorsIsCanceled e then 1 else 0 := by
  unfold deferredHandleError countHandleError
  split <;> simp

theorem countHandleConnected_deferred (cfg : Config) (e : Error) :
    countHandleConnected (deferredHandleError cfg e) = 0 := by
  unfold deferredHandleError countHandleConnected
  split <;> simp

/-- The four ways through `loop`: no candidate connects; the pipe cannot be made; the
worker is still blocked in `unix.Poll`; the poll loop returns an error. -/
theorem loop_cases (cfg : Config) (env : LoopEnv) :
    (∃ e t, connect cfg env.dial = (.error e, t) ∧
      loop cfg env = ⟨some e, t ++ deferredHandleError cfg e, []⟩) ∨
    (∃ c t errno, connect cfg env.dial = (.ok c, t) ∧ env.pipe = .error errno ∧
      loop cfg env = ⟨some (.Syscall "pipe" errno),
        t ++ (if cfg.HandleConnected then [.HandleConnected] else []) ++ [.Pipe]
          ++ deferredHandleError cfg (.Syscall "pipe" errno), [.conn c]⟩) ∨
    (∃ c t r w t1, connect cfg env.dial = (.ok c, t) ∧ env.pipe = .ok (r, w) ∧
      pollLoop cfg c (pollFds r) (List.replicate 1024 0) env.iters = (none, t1) ∧
      loop cfg env = ⟨none,
        t ++ (if cfg.HandleConnected then [.HandleConnected] else []) ++ [.Pipe] ++ t1,
        [.conn c, .file r, .file w]⟩) ∨
    (∃ c t r w e t1, connect cfg env.dial = (.ok c, t) ∧ env.pipe = .ok (r, w) ∧
      pollLoop cfg c (pollFds r) (List.replicate 1024 0) env.iters = (some e, t1) ∧
      loop cfg env = ⟨some e,
        t ++ (if cfg.HandleConnected then [.HandleConnected] else []) ++ [.Pipe] ++ t1
          ++ [.CloseChanDone] ++ deferredHandleError cfg e,
        [.conn c, .file r, .file w]⟩) := by
  rcases hcf : connect cfg env.dial with ⟨_ | c, t⟩
  · left
    exact ⟨_, t, rfl, by simp only [loop, hcf]⟩
  · right
    cases hp : env.pipe with
    | error errno =>
      left
      exact ⟨c, t, errno, rfl, rfl, by simp only [loop, hcf, hp]⟩
    | ok rw =>
      obtain ⟨r, w⟩ := rw
      right
      rcases hq : pollLoop cfg c (pollFds r) (List.replicate 1024 0) env.iters with ⟨_ | e, t1⟩
      · left
        exact ⟨c, t, r, w, t1, rfl, rfl, hq, by simp only [loop, hcf, hp, hq]⟩
      · right
        exact ⟨c, t, r, w, e, t1, rfl, rfl, hq, by simp only [loop, hcf, hp, hq]⟩

/-- A call of `loop` that returns `e` calls `HandleError` once if the callback is set and
`e` is not a cancellation, and not at all otherwise. -/
theorem countHandleError_loop (cfg : Config) (env : LoopEnv) (e : Error)
    (h : (loop cfg env).err = some e) :
    countHandleError (loop cfg env).trace
      = if cfg.HandleError && !errorsIsCanceled e then 1 else 0 := by
  have hd := countHandleError_deferred cfg e
  rcases loop_cases cfg env with ⟨e1, t, hc, hl⟩ | ⟨c, t, errno, hc, -, hl⟩ |
      ⟨c, t, r, w, t1, hc, -, hq, hl⟩ | ⟨c, t, r, w, e1, t1, hc, -, hq, hl⟩
  · rw [hl] at h ⊢
    simp only [Option.some.injEq] at h
    subst h
    have h1 := countHandleError_connectFrom env.dial cfg.Filenames
    rw [show connectFrom env.dial cfg.Filenames = connect cfg env.dial from rfl, hc] at h1
    unfold countHandleError at h1 hd ⊢
    simp only [List.countP_append, h1, hd, Nat.zero_add]
  · rw [hl] at h ⊢
    simp only [Option.some.injEq] at h
    subst h
    have h1 := countHandleError_connectFrom env.dial cfg.Filenames
    rw [show connectFrom env.dial cfg.Filenames = connect cfg env.dial from rfl, hc] at h1
    unfold countHandleError at h1 hd ⊢
    simp only [List.countP_append, h1, hd, Nat.zero_add]
    split <;> simp
  · rw [hl] at h
    simp at h
  · rw [hl] at h ⊢
    simp only [Option.some.injEq] at h
    subst h
    have h1 := countHandleError_connectFrom env.dial cfg.Filenames
    rw [show connectFrom env.dial cfg.Filenames = connect cfg env.dial from rfl, hc] at h1
    have h2 := countHandleError_pollLoop cfg c (pollFds r) (List.replicate 1024 0) env.iters
    rw [hq] at h2
    unfold countHandleError at h1 h2 hd ⊢
    simp only [List.countP_append, h1, h2, hd, Nat.zero_add]
    split <;> simp

theorem countHandleConnected_loop (cfg : Config) (env : LoopEnv) (c : Conn) (t : List Event)
    (h : connect cfg env.dial = (.ok c, t)) :
    countHandleConnected (loop cfg env).trace = if cfg.HandleConnected then 1 else 0 := by
  have h1 := countHandleConnected_connectFrom env.dial cfg.Filenames
  rw [show connectFrom env.dial cfg.Filenames = connect cfg env.dial from rfl, h] at h1
  rcases loop_cases cfg env with ⟨e1, t0, hc, hl⟩ | ⟨c0, t0, errno, hc, -, hl⟩ |
      ⟨c0, t0, r, w, t1, hc, -, hq, hl⟩ | ⟨c0, t0, r, w, e1, t1, hc, -, hq, hl⟩
  · rw [h] at hc; simp at hc
  · rw [h] at hc
    simp only [Prod.mk.injEq, Except.ok.injEq] at hc
    obtain ⟨rfl, rfl⟩ := hc
    have hd := countHandleConnected_deferred cfg (.Syscall "pipe" errno)
    rw [hl]
    unfold countHandleConnected at h1 hd ⊢
    simp only [List.countP_append, h1, hd, Nat.zero_add]
    split <;> simp
  · rw [h] at hc
    simp only [Prod.mk.injEq, Except.ok.injEq] at hc
    obtain ⟨rfl, rfl⟩ := hc
    have h2 := countHandleConnected_pollLoop cfg c (pollFds r) (List.replicate 1024 0)
      env.iters
    rw [hq] at h2
    rw [hl]
    unfold countHandleConnected at h1 h2 ⊢
    simp only [List.countP_append, h1, h2, Nat.zero_add]
    split <;> simp
  · rw [h] at hc
    simp only [Prod.mk.injEq, Except.ok.injEq] at hc
    obtain ⟨rfl, rfl⟩ := hc
    have h2 := countHandleConnected_pollLoop cfg c (pollFds r) (List.replicate 1024 0)
      env.iters
    rw [hq] at h2
    have hd := countHandleConnected_deferred cfg e1
    rw [hl]
    unfold countHandleConnected at h1 h2 hd ⊢
    simp only [List.countP_append, h1, h2, hd, Nat.zero_add]
    split <;> simp

/-- C5: `connect` dials the candidates in list order; it stops at the first candidate
whose dial succeeds and returns that connection, having dialed nothing after it; it
returns the error `unable to connect to a socket` exactly when every dial fails (also for
the empty list), and then it has dialed the whole list. With candidates `[A, B]`, `A`
failing and `B` succeeding, it returns the connection of `B` and `loop` calls
`HandleConnected` once (where that callback is set). -/
theorem connect_failover_order (cfg : Config) (dial : String → Except Error Conn) :
    (∀ c, (connect cfg dial).1 = .ok c →
      ∃ pre f post, cfg.Filenames = pre ++ f :: post ∧ (∀ g ∈ pre, ∃ e, dial g = .error e) ∧
        dial f = .ok c ∧ dialed (connect cfg dial).2 = pre ++ [f]) ∧
    ((connect cfg dial).1 = .error (.New "unable to connect to a socket") ↔
      ∀ g ∈ cfg.Filenames, ∃ e, dial g = .error e) ∧
    (∀ e, (connect cfg dial).1 = .error e →
      e = .New "unable to connect to a socket" ∧ dialed (connect cfg dial).2 = cfg.Filenames) ∧
    (∀ A B cB, cfg.Filenames = [A, B] → (∃ e, dial A = .error e) → dial B = .ok cB →
      (connect cfg dial).1 = .ok cB ∧ dialed (connect cfg dial).2 = [A, B] ∧
      ∀ pipe iters, countHandleConnected (loop cfg ⟨dial, pipe, iters⟩).trace
        = if cfg.HandleConnected then 1 else 0) := by
  refine ⟨fun c h => connectFrom_ok dial _ c h, ⟨fun h => (connectFrom_error dial _ _ h).2.1,
    fun h => connectFrom_all_fail dial _ h⟩, fun e h => ?_, ?_⟩
  · exact ⟨(connectFrom_error dial _ _ h).1, (connectFrom_error dial _ _ h).2.2⟩
  · rintro A B cB hf ⟨e, hA⟩ hB
    have hc : connect cfg dial
        = (.ok cB, [.Dial A, .LogDebug e A, .Dial B]) := by
      simp only [connect, hf, connectFrom, hA, hB]
    refine ⟨by rw [hc], by rw [hc]; rfl, fun pipe iters => ?_⟩
    exact countHandleConnected_loop cfg ⟨dial, pipe, iters⟩ cB _ hc

/-! ## The poll loop -/

/-- At the head of any round, with the wakeup pipe reported readable, the poll loop
returns `context.Canceled` after the poll alone. -/
theorem pollLoop_wakeup (cfg : Config) (c : Conn) (fds : List PollFd) (b : List Nat)
    (it : Iteration) (its : List Iteration) (revents : List Nat)
    (hp : it.poll = .ok revents) (hw : revents.getD 1 0 &&& POLLIN ≠ 0) :
    pollLoop cfg c fds b (it :: its) = (some .Canceled, [.Poll fds]) := by
  simp only [pollLoop, hp]
  rw [if_pos hw]

/-- Rounds that go on are passed through: the loop is then at the head of the next round
with a buffer of the same length. -/
theorem pollLoop_append (cfg : Config) (c : Conn) (fds : List PollFd)
    (pre : List Iteration) (hpre : ∀ it ∈ pre, it.continues) (rest : List Iteration) :
    ∀ b : List Nat, ∃ b1 : List Nat, b1.length = b.length ∧
      (pollLoop cfg c fds b pre).1 = none ∧
      pollLoop cfg c fds b (pre ++ rest)
        = ((pollLoop cfg c fds b1 rest).1,
            (pollLoop cfg c fds b pre).2 ++ (pollLoop cfg c fds b1 rest).2) := by
  induction pre with
  | nil => intro b; exact ⟨b, rfl, rfl, rfl⟩
  | cons it pre ih =>
    intro b
    obtain ⟨revents, avail, hp, hw, hr⟩ := hpre it (List.mem_cons_self _ _)
    have hw1 : ¬ (revents.getD 1 0 &&& POLLIN ≠ 0) := fun h => h hw
    obtain ⟨b1, hb1, hn, heq⟩ := ih (fun x hx => hpre x (List.mem_cons_of_mem _ hx))
      (List.take (min avail.length b.length) avail ++ List.drop (min avail.length b.length) b)
    refine ⟨b1, ?_, ?_, ?_⟩
    · rw [hb1]
      simp only [List.length_append, List.length_take, List.length_drop]
      omega
    · simp only [pollLoop, hp, hr, if_neg hw1]
      exact hn
    · show pollLoop cfg c fds b (it :: (pre ++ rest)) = _
      simp only [pollLoop, hp, hr, if_neg hw1]
      rw [heq]
      simp only [List.append_assoc]

theorem errorsIsCanceled_pollLoop (cfg : Config) (c : Conn) (fds : List PollFd)
    (its : List Iteration) :
    ∀ (b : List Nat) (e : Error), (pollLoop cfg c fds b its).1 = some e →
      errorsIsCanceled e = true →
      ∃ it ∈ its, ∃ revents, it.poll = .ok revents ∧ revents.getD 1 0 &&& POLLIN ≠ 0 := by
  induction its with
  | nil => intro b e h; simp [pollLoop] at h
  | cons it its ih =>
    intro b e h hc
    unfold pollLoop at h
    cases hp : it.poll with
    | error errno =>
      simp only [hp, Option.some.injEq] at h
      subst h
      simp [errorsIsCanceled] at hc
    | ok revents =>
      simp only [hp] at h
      by_cases hw : revents.getD 1 0 &&& POLLIN ≠ 0
      · exact ⟨it, List.mem_cons_self _ _, revents, hp, hw⟩
      · rw [if_neg hw] at h
        cases hr : it.read with
        | error msg =>
          simp only [hr, Option.some.injEq] at h
          subst h
          simp [errorsIsCanceled] at hc
        | ok avail =>
          simp only [hr] at h
          obtain ⟨x, hx, hx1⟩ := ih _ e h hc
          exact ⟨x, List.mem_cons_of_mem _ hx, hx1⟩

/-- A call of `loop` returns a cancellation only when a round of its poll loop has
reported the wakeup pipe readable. -/
theorem errorsIsCanceled_loop (cfg : Config) (env : LoopEnv) (e : Error)
    (h : (loop cfg env).err = some e) (hc : errorsIsCanceled e = true) :
    ∃ it ∈ env.iters, ∃ revents, it.poll = .ok revents ∧ revents.getD 1 0 &&& POLLIN ≠ 0 := by
  rcases loop_cases cfg env with ⟨e1, t0, hcn, hl⟩ | ⟨c0, t0, errno, hcn, -, hl⟩ |
      ⟨c0, t0, r, w, t1, hcn, -, hq, hl⟩ | ⟨c0, t0, r, w, e1, t1, hcn, -, hq, hl⟩
  · rw [hl] at h
    simp only [Option.some.injEq] at h
    subst h
    have := (connectFrom_error env.dial cfg.Filenames e1 (by
      rw [show connectFrom env.dial cfg.Filenames = connect cfg env.dial from rfl, hcn])).1
    subst this
    simp [errorsIsCanceled] at hc
  · rw [hl] at h
    simp only [Option.some.injEq] at h
    subst h
    simp [errorsIsCanceled] at hc
  · rw [hl] at h
    simp at h
  · rw [hl] at h
    simp only [Option.some.injEq] at h
    subst h
    exact errorsIsCanceled_pollLoop cfg c0 (pollFds r) env.iters _ e1 (by rw [hq]) hc

theorem handleData_loop (cfg : Config) (env : LoopEnv) (chunk : List Nat)
    (h : .HandleData chunk ∈ (loop cfg env).trace) :
    chunk.length ≤ 1024 ∧ cfg.HandleData = true := by
  have hconn : ∀ t, (∃ x, connect cfg env.dial = (x, t)) → Event.HandleData chunk ∉ t := by
    rintro t ⟨x, hx⟩ hm
    have := connectFrom_events env.dial cfg.Filenames (.HandleData chunk) (by
      rw [show connectFrom env.dial cfg.Filenames = connect cfg env.dial from rfl, hx]
      exact hm)
    simp at this
  have hpoll : ∀ c r x t1, pollLoop cfg c (pollFds r) (List.replicate 1024 0) env.iters
      = (x, t1) → Event.HandleData chunk ∈ t1 → chunk.length ≤ 1024 ∧ cfg.HandleData = true := by
    intro c r x t1 hq hm
    have := pollLoop_events cfg c (pollFds r) env.iters (List.replicate 1024 0)
      (.HandleData chunk) (by rw [hq]; exact hm)
    rcases this with h1 | h1 | ⟨ch, h1, h2, h3⟩
    · cases h1
    · cases h1
    · cases h1
      rw [List.length_replicate] at h2
      exact ⟨h2, h3⟩
  have hdef : ∀ e, Event.HandleData chunk ∉ deferredHandleError cfg e := by
    intro e
    unfold deferredHandleError
    split <;> simp
  have hcon : Event.HandleData chunk ∉
      (if cfg.HandleConnected then [Event.HandleConnected] else []) := by
    split <;> simp
  rcases loop_cases cfg env with ⟨e1, t0, hcn, hl⟩ | ⟨c0, t0, errno, hcn, -, hl⟩ |
      ⟨c0, t0, r, w, t1, hcn, -, hq, hl⟩ | ⟨c0, t0, r, w, e1, t1, hcn, -, hq, hl⟩
  · rw [hl] at h
    simp only [List.mem_append] at h
    rcases h with h | h
    · exact absurd h (hconn _ ⟨_, hcn⟩)
    · exact absurd h (hdef _)
  · rw [hl] at h
    simp only [List.mem_append, List.mem_singleton] at h
    rcases h with ((h | h) | h) | h
    · exact absurd h (hconn _ ⟨_, hcn⟩)
    · exact absurd h hcon
    · simp at h
    · exact absurd h (hdef _)
  · rw [hl] at h
    simp only [List.mem_append, List.mem_singleton] at h
    rcases h with ((h | h) | h) | h
    · exact absurd h (hconn _ ⟨_, hcn⟩)
    · exact absurd h hcon
    · simp at h
    · exact hpoll _ _ _ _ hq h
  · rw [hl] at h
    simp only [List.mem_append, List.mem_singleton] at h
    rcases h with ((((h | h) | h) | h) | h) | h
    · exact absurd h (hconn _ ⟨_, hcn⟩)
    · exact absurd h hcon
    · simp at h
    · exact hpoll _ _ _ _ hq h
    · simp at h
    · exact absurd h (hdef _)

theorem deferredHandleError_canceled (cfg : Config) :
    deferredHandleError cfg .Canceled = [] := by
  simp [deferredHandleError, errorsIsCanceled]

theorem pollLoop_err (cfg : Config) (c : Conn) (fds : List PollFd) (its : List Iteration) :
    ∀ (b : List Nat) (e : Error), (pollLoop cfg c fds b its).1 = some e →
      e = .Canceled ∨ errorsIsCanceled e = false := by
  induction its with
  | nil => intro b e h; simp [pollLoop] at h
  | cons it its ih =>
    intro b e h
    unfold pollLoop at h
    cases hp : it.poll with
    | error errno =>
      simp only [hp, Option.some.injEq] at h
      subst h
      exact .inr rfl
    | ok revents =>
      simp only [hp] at h
      by_cases hw : revents.getD 1 0 &&& POLLIN ≠ 0
      · rw [if_pos hw] at h
        simp only [Option.some.injEq] at h
        exact .inl h.symm
      · rw [if_neg hw] at h
        cases hr : it.read with
        | error msg =>
          simp only [hr, Option.some.injEq] at h
          subst h
          exact .inr rfl
        | ok avail =>
          simp only [hr] at h
          exact ih _ e h

/-- The error that `loop` returns is `context.Canceled` itself or does not match it. -/
theorem loop_err (cfg : Config) (env : LoopEnv) (e : Error)
    (h : (loop cfg env).err = some e) : e = .Canceled ∨ errorsIsCanceled e = false := by
  rcases loop_cases cfg env with ⟨e1, t0, hcn, hl⟩ | ⟨c0, t0, errno, hcn, -, hl⟩ |
      ⟨c0, t0, r, w, t1, hcn, -, hq, hl⟩ | ⟨c0, t0, r, w, e1, t1, hcn, -, hq, hl⟩
  · rw [hl] at h
    simp only [Option.some.injEq] at h
    subst h
    have := (connectFrom_error env.dial cfg.Filenames e1 (by
      rw [show connectFrom env.dial cfg.Filenames = connect cfg env.dial from rfl, hcn])).1
    subst this
    exact .inr rfl
  · rw [hl] at h
    simp only [Option.some.injEq] at h
    subst h
    exact .inr rfl
  · rw [hl] at h
    simp at h
  · rw [hl] at h
    simp only [Option.some.injEq] at h
    subst h
    exact pollLoop_err cfg c0 (pollFds r) env.iters _ e1 (by rw [hq])

/-- A call of `run` whose first call of `loop` returns a cancellation returns at once. -/
theorem run_canceled (cfg : Config) (cy : Cycle) (cys : List Cycle) (e : Error)
    (h : (loop cfg cy.env).err = some e) (hc : errorsIsCanceled e = true) :
    run cfg (cy :: cys) = ⟨.Closed, (loop cfg cy.env).trace ++ [.CloseChanClosed]⟩ := by
  simp only [run, h, hc, if_true]

/-- C7: in every round of the poll loop in which the wakeup pipe is reported readable,
`loop` returns `context.Canceled` after the poll alone: no read, no `HandleData`, no
`HandleError`, whatever is reported for the other descriptor; `run` then returns, closing
`chanClosed`, without starting the backoff timer. A call of `loop` that returns an error
other than `context.Canceled` calls `HandleError` once (where that callback is set), one
that returns `context.Canceled` never, and every chunk passed to `HandleData` has at most
1024 bytes. -/
theorem cancel_in_poll_loop_suppresses_callbacks (cfg : Config) :
    (∀ c fds b it its revents, it.poll = .ok revents → revents.getD 1 0 &&& POLLIN ≠ 0 →
      pollLoop cfg c fds b (it :: its) = (some .Canceled, [.Poll fds])) ∧
    (∀ env c t r w pre it post revents, connect cfg env.dial = (.ok c, t) →
      env.pipe = .ok (r, w) → env.iters = pre ++ it :: post → (∀ x ∈ pre, x.continues) →
      it.poll = .ok revents → revents.getD 1 0 &&& POLLIN ≠ 0 →
        (loop cfg env).err = some .Canceled ∧
        (loop cfg env).trace
          = (loop cfg { env with iters := pre }).trace
            ++ [.Poll (pollFds r), .CloseChanDone] ∧
        countRead (loop cfg env).trace
          = countRead (loop cfg { env with iters := pre }).trace ∧
        countHandleData (loop cfg env).trace
          = countHandleData (loop cfg { env with iters := pre }).trace ∧
        countHandleError (loop cfg env).trace = 0 ∧
        ∀ bo cys, run cfg (⟨env, bo⟩ :: cys)
          = ⟨.Closed, (loop cfg env).trace ++ [.CloseChanClosed]⟩) ∧
    (∀ env e, (loop cfg env).err = some e → e ≠ .Canceled →
      countHandleError (loop cfg env).trace = if cfg.HandleError then 1 else 0) ∧
    (∀ env, (loop cfg env).err = some .Canceled →
      countHandleError (loop cfg env).trace = 0) ∧
    (∀ env chunk, .HandleData chunk ∈ (loop cfg env).trace → chunk.length ≤ 1024) ∧
    (∀ cy cys e, (loop cfg cy.env).err = some e → errorsIsCanceled e = true →
      run cfg (cy :: cys) = ⟨.Closed, (loop cfg cy.env).trace ++ [.CloseChanClosed]⟩) := by
  have hcanc : ∀ env, (loop cfg env).err = some .Canceled →
      countHandleError (loop cfg env).trace = 0 := by
    intro env h
    rw [countHandleError_loop cfg env _ h]
    simp [errorsIsCanceled]
  refine ⟨fun c fds b it its revents hp hw => pollLoop_wakeup cfg c fds b it its revents hp hw,
    ?_, ?_, hcanc, fun env chunk h => (handleData_loop cfg env chunk h).1,
    fun cy cys e h hc => run_canceled cfg cy cys e h hc⟩
  · intro env c t r w pre it post revents hcn hp hit hpre hpoll hw
    obtain ⟨b1, -, hn, heq⟩ := pollLoop_append cfg c (pollFds r) pre hpre (it :: post)
      (List.replicate 1024 0)
    rw [pollLoop_wakeup cfg c (pollFds r) b1 it post revents hpoll hw] at heq
    have hpre1 : pollLoop cfg c (pollFds r) (List.replicate 1024 0) pre
        = (none, (pollLoop cfg c (pollFds r) (List.replicate 1024 0) pre).2) := by
      rw [← hn]
    have hl : loop cfg env = ⟨some .Canceled,
        (loop cfg { env with iters := pre }).trace ++ [.Poll (pollFds r), .CloseChanDone],
        [.conn c, .file r, .file w]⟩ := by
      have h2 : loop cfg { env with iters := pre } = ⟨none,
          t ++ (if cfg.HandleConnected then [.HandleConnected] else []) ++ [.Pipe]
            ++ (pollLoop cfg c (pollFds r) (List.replicate 1024 0) pre).2,
          [.conn c, .file r, .file w]⟩ := by
        simp only [loop, hcn, hp]
        rw [hpre1]
      rw [h2]
      simp only [loop, hcn, hp, hit, heq, deferredHandleError_canceled, List.append_assoc,
        List.append_nil, List.cons_append, List.nil_append]
    have herr : (loop cfg env).err = some .Canceled := by rw [hl]
    refine ⟨herr, by rw [hl], ?_, ?_, hcanc env herr, fun bo cys => ?_⟩
    · rw [hl]
      simp [countRead]
    · rw [hl]
      simp [countHandleData]
    · exact run_canceled cfg ⟨env, bo⟩ cys .Canceled herr rfl
  · intro env e h hne
    rw [countHandleError_loop cfg env e h]
    rcases loop_err cfg env e h with h1 | h1
    · exact absurd h1 hne
    · simp [h1]

/-- Witness of C7: the scenario `cancelledWhileReading`, in which the last round reports
both the data and the wakeup pipe ready. -/
theorem cancel_in_poll_loop_suppresses_callbacks_witness :
    (loop oneCandidate cancelledWhileReading).err = some .Canceled ∧
    countHandleError (loop oneCandidate cancelledWhileReading).trace = 0 :=
  ⟨((cancel_in_poll_loop_suppresses_callbacks oneCandidate).2.1 cancelledWhileReading ⟨3⟩
      [.Dial "/run/user/1000/pipewire-0"] ⟨4⟩ ⟨5⟩
      [{ poll := .ok [1, 0], read := .ok [10, 20, 30] }]
      { poll := .ok [1, 1], read := .ok [40] } [] [1, 1] rfl rfl rfl
      (by
        intro x hx
        rw [List.mem_singleton] at hx
        subst hx
        exact ⟨[1, 0], [10, 20, 30], rfl, by decide, rfl⟩)
      rfl (by decide)).1,
    ((cancel_in_poll_loop_suppresses_callbacks oneCandidate).2.1 cancelledWhileReading ⟨3⟩
      [.Dial "/run/user/1000/pipewire-0"] ⟨4⟩ ⟨5⟩
      [{ poll := .ok [1, 0], read := .ok [10, 20, 30] }]
      { poll := .ok [1, 1], read := .ok [40] } [] [1, 1] rfl rfl rfl
      (by
        intro x hx
        rw [List.mem_singleton] at hx
        subst hx
        exact ⟨[1, 0], [10, 20, 30], rfl, by decide, rfl⟩)
      rfl (by decide)).2.2.2.2.1⟩

/-! ## `run` -/

theorem dialed_pollLoop (cfg : Config) (c : Conn) (fds : List PollFd) (b : List Nat)
    (its : List Iteration) : dialed (pollLoop cfg c fds b its).2 = [] := by
  unfold dialed
  rw [List.filterMap_eq_nil_iff]
  intro ev hev
  rcases pollLoop_events cfg c fds its b ev hev with rfl | rfl | ⟨chunk, rfl, -, -⟩ <;> rfl

theorem dialed_deferred (cfg : Config) (e : Error) :
    dialed (deferredHandleError cfg e) = [] := by
  unfold deferredHandleError dialed
  split <;> rfl

/-- The dials of a call of `loop` are those of its call of `connect`. -/
theorem dialed_loop (cfg : Config) (env : LoopEnv) :
    dialed (loop cfg env).trace = dialed (connect cfg env.dial).2 := by
  have hcon : dialed (if cfg.HandleConnected then [Event.HandleConnected] else []) = [] := by
    split <;> rfl
  have happ : ∀ t u, dialed (t ++ u) = dialed t ++ dialed u := by
    intro t u
    simp only [dialed, List.filterMap_append]
  have hpipe : dialed [Event.Pipe] = [] := rfl
  have hdone : dialed [Event.CloseChanDone] = [] := rfl
  rcases loop_cases cfg env with ⟨e1, t0, hcn, hl⟩ | ⟨c0, t0, errno, hcn, -, hl⟩ |
      ⟨c0, t0, r, w, t1, hcn, -, hq, hl⟩ | ⟨c0, t0, r, w, e1, t1, hcn, -, hq, hl⟩
  · rw [hl, hcn]
    simp only [happ, dialed_deferred, List.append_nil]
  · rw [hl, hcn]
    simp only [happ, dialed_deferred, hcon, hpipe, List.append_nil]
  · have h2 := dialed_pollLoop cfg c0 (pollFds r) (List.replicate 1024 0) env.iters
    rw [hq] at h2
    rw [hl, hcn]
    simp only [happ, hcon, hpipe, h2, List.append_nil]
  · have h2 := dialed_pollLoop cfg c0 (pollFds r) (List.replicate 1024 0) env.iters
    rw [hq] at h2
    rw [hl, hcn]
    simp only [happ, dialed_deferred, hcon, hpipe, hdone, h2, List.append_nil]

/-- The function `run` returns only after a round has reported the second poll entry
readable or the backoff `select` has taken `<-ctx.Done()`. -/
theorem run_closed (cfg : Config) (cycles : List Cycle) :
    (run cfg cycles).state = .Closed → ∃ cy ∈ cycles, cy.observesWakeup := by
  induction cycles with
  | nil => intro h; simp [run] at h
  | cons cy cys ih =>
    intro h
    unfold run at h
    cases he : (loop cfg cy.env).err with
    | none => simp [he] at h
    | some e =>
      simp only [he] at h
      by_cases hc : errorsIsCanceled e = true
      · exact ⟨cy, List.mem_cons_self _ _, .inl (errorsIsCanceled_loop cfg cy.env e he hc)⟩
      · rw [if_neg hc] at h
        cases hb : cy.backoff with
        | none => simp [hb] at h
        | some sel =>
          cases sel with
          | timer =>
            simp only [hb] at h
            obtain ⟨x, hx, hx1⟩ := ih h
            exact ⟨x, List.mem_cons_of_mem _ hx, hx1⟩
          | ctxDone => exact ⟨cy, List.mem_cons_self _ _, .inr hb⟩

/-- The retry cycle of `run`. It reaches `Closed` only after a round has reported the
second poll entry readable or the backoff `select` has taken `<-ctx.Done()`. When a call
of `loop` returns an error and neither has happened in that round, the error does not
match `context.Canceled` and `run` does not return: it starts the timer of
`defaultTimeout` (30 seconds) and, while the timer runs, is in `Backoff`; when the timer
fires it calls `loop` again. Every call of `loop` dials the candidates from the first
entry of the list in order, and all of them when none connects. -/
theorem run_backoff_retry (cfg : Config) (cycles : List Cycle) :
    ((run cfg cycles).state = .Closed → ∃ cy ∈ cycles, cy.observesWakeup) ∧
    ((∀ cy ∈ cycles, ¬ cy.observesWakeup) → (run cfg cycles).state ≠ .Closed) ∧
    (∀ cy cys e, (loop cfg cy.env).err = some e → ¬ cy.observesWakeup →
      errorsIsCanceled e = false ∧
      (cy.backoff = none → run cfg (cy :: cys)
        = ⟨.Backoff, (loop cfg cy.env).trace ++ [.After defaultTimeout]⟩) ∧
      (cy.backoff = some .timer → run cfg (cy :: cys)
        = ⟨(run cfg cys).state,
            (loop cfg cy.env).trace ++ [.After defaultTimeout] ++ (run cfg cys).trace⟩)) ∧
    defaultTimeout = 30 * 1000000000 ∧
    (∀ env, ∃ rest, dialed (loop cfg env).trace ++ rest = cfg.Filenames) ∧
    (∀ env e, (connect cfg env.dial).1 = .error e →
      dialed (loop cfg env).trace = cfg.Filenames) := by
  refine ⟨run_closed cfg cycles, ?_, ?_, rfl, ?_, ?_⟩
  · intro hno hcl
    obtain ⟨cy, hcy, hobs⟩ := run_closed cfg cycles hcl
    exact hno cy hcy hobs
  · intro cy cys e he hno
    have hc : errorsIsCanceled e = false := by
      cases hx : errorsIsCanceled e with
      | false => rfl
      | true => exact absurd (.inl (errorsIsCanceled_loop cfg cy.env e he hx)) hno
    refine ⟨hc, fun hb => ?_, fun hb => ?_⟩
    · simp only [run, he, hc, hb, Bool.false_eq_true, if_false]
    · simp only [run, he, hc, hb, Bool.false_eq_true, if_false]
  · intro env
    rw [dialed_loop]
    cases hr : (connect cfg env.dial).1 with
    | error e =>
      exact ⟨[], by rw [List.append_nil]; exact (connectFrom_error env.dial _ e hr).2.2⟩
    | ok c =>
      obtain ⟨pre, f, post, h1, -, -, h4⟩ := connectFrom_ok env.dial _ c hr
      refine ⟨post, ?_⟩
      rw [show connect cfg env.dial = connectFrom env.dial cfg.Filenames from rfl, h4, h1]
      simp
  · intro env e hr
    rw [dialed_loop]
    exact (connectFrom_error env.dial _ e hr).2.2

/-- Two rounds in which no candidate accepts and nothing is cancelled: the timer of the
first round fires and the second round is waiting in its backoff. -/
theorem run_backoff_retry_allRefuse :
    (run oneCandidate [⟨allRefuse, some .timer⟩, ⟨allRefuse, none⟩]).state ≠ .Closed ∧
    run oneCandidate [⟨allRefuse, some .timer⟩, ⟨allRefuse, none⟩]
      = ⟨(run oneCandidate [⟨allRefuse, none⟩]).state,
          (loop oneCandidate allRefuse).trace ++ [.After defaultTimeout]
            ++ (run oneCandidate [⟨allRefuse, none⟩]).trace⟩ :=
  have hno : ∀ bo, bo ≠ some Select.ctxDone → ¬ (Cycle.mk allRefuse bo).observesWakeup := by
    intro bo hbo h
    rcases h with ⟨it, hit, -⟩ | h
    · simp [allRefuse] at hit
    · exact hbo h
  ⟨(run_backoff_retry oneCandidate [⟨allRefuse, some .timer⟩, ⟨allRefuse, none⟩]).2.1
      (by
        intro cy hcy
        simp only [List.mem_cons, List.mem_singleton, List.not_mem_nil, or_false] at hcy
        rcases hcy with rfl | rfl
        · exact hno _ (by decide)
        · exact hno _ (by decide)),
    ((run_backoff_retry oneCandidate []).2.2.1 ⟨allRefuse, some .timer⟩
      [⟨allRefuse, none⟩] (.New "unable to connect to a socket") rfl
      (hno _ (by decide))).2.2 rfl⟩

/-- Witness of C5: the first of two candidates refuses, the second accepts. -/
theorem connect_failover_order_witness :
    (connect twoCandidates secondAccepts).1 = .ok ⟨3⟩ ∧
    dialed (connect twoCandidates secondAccepts).2
      = ["/run/a/pipewire-0", "/run/b/pipewire-0"] ∧
    countHandleConnected (loop twoCandidates ⟨secondAccepts, .ok (⟨4⟩, ⟨5⟩), []⟩).trace = 1 :=
  have h := (connect_failover_order twoCandidates secondAccepts).2.2.2
    "/run/a/pipewire-0" "/run/b/pipewire-0" ⟨3⟩ rfl
    ⟨.Dial false "connection refused", rfl⟩ rfl
  ⟨h.1, h.2.1, h.2.2 (.ok (⟨4⟩, ⟨5⟩)) []⟩

/-! ## Where the code departs from its description -/

/-- C6 fails on the code. With one candidate whose dial fails because the context was
cancelled, `connect` returns `unable to connect to a socket`, which does not match
`context.Canceled`; `loop` returns it and calls `HandleError` with it; `run` then leaves
through the `ctx.Done()` case of the backoff `select`. -/
theorem cancel_while_dialing_calls_HandleError :
    (connect oneCandidate cancelledWhileDialing.dial).1
      = .error (.New "unable to connect to a socket") ∧
    errorsIsCanceled (.New "unable to connect to a socket") = false ∧
    (loop oneCandidate cancelledWhileDialing).err
      = some (.New "unable to connect to a socket") ∧
    (loop oneCandidate cancelledWhileDialing).trace
      = [.Dial "/run/user/1000/pipewire-0",
         .LogDebug (.Dial true "dial unix: operation was canceled")
           "/run/user/1000/pipewire-0",
         .HandleError (.New "unable to connect to a socket")] ∧
    countHandleError (loop oneCandidate cancelledWhileDialing).trace = 1 ∧
    (run oneCandidate [⟨cancelledWhileDialing, some .ctxDone⟩]).state = .Closed := by
  refine ⟨rfl, rfl, rfl, rfl, rfl, rfl⟩

/-- C9 fails on the code. In the scenario `cancelledWhileReading` the call of `loop`
returns `context.Canceled` and `run` returns, while the connection and both ends of the
pipe are still open: `loop` closes nothing. -/
theorem loop_returns_with_open_handles :
    (loop oneCandidate cancelledWhileReading).err = some .Canceled ∧
    (loop oneCandidate cancelledWhileReading).held
      = [.conn ⟨3⟩, .file ⟨4⟩, .file ⟨5⟩] ∧
    (loop oneCandidate cancelledWhileReading).held ≠ [] ∧
    (run oneCandidate [⟨cancelledWhileReading, none⟩]).state = .Closed := by
  refine ⟨rfl, rfl, by decide, rfl⟩

/-- C10 fails on the code. The first entry passed to `unix.Poll` has descriptor 0 whatever
the descriptor of the connection is; in the scenario `cancelledWhileReading` the
connection has descriptor 3 and the set polled is `[(0, POLLIN), (4, POLLIN)]`. -/
theorem poll_set_has_descriptor_zero :
    (∀ r : File, pollFds r = [⟨0, POLLIN⟩, ⟨r.fd, POLLIN⟩]) ∧
    (connect oneCandidate cancelledWhileReading.dial).1 = .ok ⟨3⟩ ∧
    (loop oneCandidate cancelledWhileReading).trace
      = [.Dial "/run/user/1000/pipewire-0", .HandleConnected, .Pipe,
         .Poll [⟨0, POLLIN⟩, ⟨4, POLLIN⟩], .Read ⟨3⟩, .HandleData [10, 20, 30],
         .Poll [⟨0, POLLIN⟩, ⟨4, POLLIN⟩], .CloseChanDone] ∧
    Event.Poll [⟨3, POLLIN⟩, ⟨4, POLLIN⟩] ∉ (loop oneCandidate cancelledWhileReading).trace := by
  have ht : (loop oneCandidate cancelledWhileReading).trace
      = [.Dial "/run/user/1000/pipewire-0", .HandleConnected, .Pipe,
         .Poll [⟨0, POLLIN⟩, ⟨4, POLLIN⟩], .Read ⟨3⟩, .HandleData [10, 20, 30],
         .Poll [⟨0, POLLIN⟩, ⟨4, POLLIN⟩], .CloseChanDone] := by
    set_option maxRecDepth 100000 in rfl
  refine ⟨fun _ => rfl, rfl, ht, ?_⟩
  rw [ht]
  decide

/-! ## The context and the wakeup descriptor -/

/-- The poll loop returns a cancellation only at a round that it has reached, after
rounds that all went on, and in which the second poll entry is reported readable. -/
theorem pollLoop_canceled_reached (cfg : Config) (c : Conn) (fds : List PollFd)
    (its : List Iteration) :
    ∀ (b : List Nat) (e : Error), (pollLoop cfg c fds b its).1 = some e →
      errorsIsCanceled e = true →
      ∃ pre it post revents, its = pre ++ it :: post ∧ (∀ x ∈ pre, x.continues) ∧
        it.poll = .ok revents ∧ revents.getD 1 0 &&& POLLIN ≠ 0 := by
  induction its with
  | nil => intro b e h; simp [pollLoop] at h
  | cons it its ih =>
    intro b e h hc
    unfold pollLoop at h
    cases hp : it.poll with
    | error errno =>
      simp only [hp, Option.some.injEq] at h
      subst h
      simp [errorsIsCanceled] at hc
    | ok revents =>
      simp only [hp] at h
      by_cases hw : revents.getD 1 0 &&& POLLIN ≠ 0
      · exact ⟨[], it, its, revents, rfl, by simp, hp, hw⟩
      · rw [if_neg hw] at h
        cases hr : it.read with
        | error msg =>
          simp only [hr, Option.some.injEq] at h
          subst h
          simp [errorsIsCanceled] at hc
        | ok avail =>
          simp only [hr] at h
          obtain ⟨pre, x, post, rev, h1, h2, h3, h4⟩ := ih _ e h hc
          refine ⟨it :: pre, x, post, rev, by rw [h1]; rfl, ?_, h3, h4⟩
          intro y hy
          rcases List.mem_cons.mp hy with rfl | hy
          · exact ⟨revents, avail, hp, by simpa using hw, hr⟩
          · exact h2 y hy

/-- While the wakeup number is the pipe, it is reported readable only when the context is
cancelled (and the monitor goroutine has written its byte). -/
theorem wakeupRevents_pipe (ctxDone scheduled : Bool)
    (h : wakeupRevents (monitor ctxDone scheduled) .pipe &&& POLLIN ≠ 0) :
    ctxDone = true := by
  cases ctxDone
  · exact absurd (by cases scheduled <;> rfl) h
  · rfl

/-- A round in which the second poll entry is reported readable: the context is cancelled,
or the wakeup number has been given to another file. -/
theorem Round.wakeup_readable (rd : Round) (revents : List Nat)
    (hp : rd.toIteration.poll = .ok revents) (hw : revents.getD 1 0 &&& POLLIN ≠ 0) :
    (rd.wakeup = .pipe ∧ rd.ctxDone = true) ∨ rd.wakeup = .reused true := by
  unfold Round.toIteration at hp
  cases hpoll : rd.poll with
  | error errno => simp [hpoll] at hp
  | ok revents0 =>
    simp only [hpoll, Except.ok.injEq] at hp
    subst hp
    cases hwk : rd.wakeup with
    | pipe =>
      left
      refine ⟨rfl, wakeupRevents_pipe rd.ctxDone rd.scheduled ?_⟩
      rw [hwk] at hw
      exact hw
    | closed =>
      rw [hwk] at hw
      exact (hw (by simp [wakeupRevents, POLLNVAL, POLLIN])).elim
    | reused readable =>
      cases readable with
      | true => right; rfl
      | false =>
        rw [hwk] at hw
        exact (hw (by simp [wakeupRevents, POLLNVAL, POLLIN])).elim

/-- A call of `loop` returns a cancellation only at a round that it has reached and in
which the context is cancelled or the wakeup number has been given to another file. -/
theorem loop_canceled_reached (cfg : Config) (a : Attempt) (e : Error)
    (h : (loop cfg a.toCycle.env).err = some e) (hc : errorsIsCanceled e = true) :
    ∃ pre rd post, a.rounds = pre ++ rd :: post ∧
      (∀ x ∈ pre, x.toIteration.continues) ∧
      ((rd.wakeup = .pipe ∧ rd.ctxDone = true) ∨ rd.wakeup = .reused true) := by
  have hq : ∃ c r b, (pollLoop cfg c (pollFds r) b a.toCycle.env.iters).1 = some e := by
    rcases loop_cases cfg a.toCycle.env with ⟨e1, t0, hcn, hl⟩ | ⟨c0, t0, errno, hcn, -, hl⟩ |
        ⟨c0, t0, r, w, t1, hcn, -, hq, hl⟩ | ⟨c0, t0, r, w, e1, t1, hcn, -, hq, hl⟩
    · rw [hl] at h
      simp only [Option.some.injEq] at h
      subst h
      have := (connectFrom_error a.toCycle.env.dial cfg.Filenames e1 (by
        rw [show connectFrom a.toCycle.env.dial cfg.Filenames
          = connect cfg a.toCycle.env.dial from rfl, hcn])).1
      subst this
      simp [errorsIsCanceled] at hc
    · rw [hl] at h
      simp only [Option.some.injEq] at h
      subst h
      simp [errorsIsCanceled] at hc
    · rw [hl] at h
      simp at h
    · rw [hl] at h
      simp only [Option.some.injEq] at h
      subst h
      exact ⟨c0, r, _, by rw [hq]⟩
  obtain ⟨c, r, b, hq⟩ := hq
  obtain ⟨pre, it, post, revents, h1, h2, h3, h4⟩ :=
    pollLoop_canceled_reached cfg c (pollFds r) _ b e hq hc
  have h1 : a.rounds.map Round.toIteration = pre ++ it :: post := h1
  obtain ⟨rpre, rrest, hr1, hr2, hr3⟩ := List.map_eq_append_iff.mp h1
  obtain ⟨rd, rpost, hr4, hr5, -⟩ := List.map_eq_cons_iff.mp hr3
  subst hr2 hr4 hr5
  refine ⟨rpre, rd, rpost, hr1, ?_, Round.wakeup_readable rd revents h3 h4⟩
  intro x hx
  exact h2 _ (List.mem_map_of_mem _ hx)

theorem backoffSelect_ctxDone (ctxDone timerFired : Bool) (pick : Select)
    (h : backoffSelect ctxDone timerFired pick = some .ctxDone) : ctxDone = true := by
  cases ctxDone with
  | true => rfl
  | false => cases timerFired <;> simp [backoffSelect] at h

/-- The function `run` returns only in an attempt that it has reached, and there either
at a round of the poll loop that it has reached, in which the context is cancelled or the
wakeup number has been given to another file, or in the backoff wait with the context
cancelled. -/
theorem run_closed_reached (cfg : Config) (attempts : List Attempt) :
    (run cfg (attempts.map Attempt.toCycle)).state = .Closed →
    ∃ pre a post, attempts = pre ++ a :: post ∧
      ((∃ rpre rd rpost, a.rounds = rpre ++ rd :: rpost ∧
          (∀ x ∈ rpre, x.toIteration.continues) ∧
          ((rd.wakeup = .pipe ∧ rd.ctxDone = true) ∨ rd.wakeup = .reused true)) ∨
        a.ctxDoneInBackoff = true) := by
  induction attempts with
  | nil => intro h; simp [run] at h
  | cons a as ih =>
    intro h
    simp only [List.map_cons] at h
    unfold run at h
    cases he : (loop cfg a.toCycle.env).err with
    | none => simp [he] at h
    | some e =>
      simp only [he] at h
      by_cases hc : errorsIsCanceled e = true
      · exact ⟨[], a, as, rfl, .inl (loop_canceled_reached cfg a e he hc)⟩
      · rw [if_neg hc] at h
        cases hb : a.toCycle.backoff with
        | none => simp [hb] at h
        | some sel =>
          cases sel with
          | timer =>
            simp only [hb] at h
            obtain ⟨pre, x, post, h1, h2⟩ := ih h
            exact ⟨a :: pre, x, post, by rw [h1]; rfl, h2⟩
          | ctxDone =>
            exact ⟨[], a, as, rfl,
              .inr (backoffSelect_ctxDone a.ctxDoneInBackoff a.timerFired a.pick hb)⟩

/-- As long as the wakeup number stays the read end of the pipe, `run` returns only after
the context has been cancelled: in a round that the worker has reached, or in a backoff
wait that it has reached. -/
theorem run_closed_of_wakeup_pipe (cfg : Config) (attempts : List Attempt)
    (hpipe : ∀ a ∈ attempts, ∀ rd ∈ a.rounds, rd.wakeup = .pipe)
    (h : (run cfg (attempts.map Attempt.toCycle)).state = .Closed) :
    ∃ pre a post, attempts = pre ++ a :: post ∧
      ((∃ rpre rd rpost, a.rounds = rpre ++ rd :: rpost ∧
          (∀ x ∈ rpre, x.toIteration.continues) ∧ rd.ctxDone = true) ∨
        a.ctxDoneInBackoff = true) := by
  obtain ⟨pre, a, post, h1, h2⟩ := run_closed_reached cfg attempts h
  refine ⟨pre, a, post, h1, ?_⟩
  rcases h2 with ⟨rpre, rd, rpost, h3, h4, h5⟩ | h2
  · left
    refine ⟨rpre, rd, rpost, h3, h4, ?_⟩
    rcases h5 with ⟨-, h5⟩ | h5
    · exact h5
    · have ha : a ∈ attempts := by rw [h1]; simp
      have hrd : rd ∈ a.rounds := by rw [h3]; simp
      rw [hpipe a ha rd hrd] at h5
      cases h5
  · exact .inr h2

/-- C8 fails on the code. In the scenario `wakeupReused` the context is never cancelled;
after the first round the file `r`, which `loop` no longer refers to, is finalized and
its descriptor number is given to another file with data to read. `unix.Poll` reports the
second entry readable, `loop` returns `context.Canceled` without a call of `HandleError`,
and `run` returns, closing `chanClosed`: the worker has ended without a shutdown request
and without a retry. -/
theorem run_returns_without_cancellation :
    (∀ rd ∈ wakeupReused.rounds, rd.ctxDone = false) ∧
    wakeupReused.ctxDoneInBackoff = false ∧
    ¬ wakeupReused.ctxCancelled ∧
    (loop oneCandidate wakeupReused.toCycle.env).err = some .Canceled ∧
    countHandleError (loop oneCandidate wakeupReused.toCycle.env).trace = 0 ∧
    run oneCandidate [wakeupReused.toCycle]
      = ⟨.Closed,
          [.Dial "/run/user/1000/pipewire-0", .HandleConnected, .Pipe,
           .Poll [⟨0, POLLIN⟩, ⟨4, POLLIN⟩], .Read ⟨3⟩, .HandleData [10, 20, 30],
           .Poll [⟨0, POLLIN⟩, ⟨4, POLLIN⟩], .CloseChanDone, .CloseChanClosed]⟩ := by
  have hrun : run oneCandidate [wakeupReused.toCycle]
      = ⟨.Closed,
          [.Dial "/run/user/1000/pipewire-0", .HandleConnected, .Pipe,
           .Poll [⟨0, POLLIN⟩, ⟨4, POLLIN⟩], .Read ⟨3⟩, .HandleData [10, 20, 30],
           .Poll [⟨0, POLLIN⟩, ⟨4, POLLIN⟩], .CloseChanDone, .CloseChanClosed]⟩ := by
    set_option maxRecDepth 100000 in rfl
  have herr : (loop oneCandidate wakeupReused.toCycle.env).err = some .Canceled := rfl
  refine ⟨by decide, rfl, ?_, herr, ?_, hrun⟩
  · rintro (⟨rd, hrd, h⟩ | h)
    · revert rd
      decide
    · exact absurd h (by decide)
  · rw [countHandleError_loop oneCandidate _ _ herr]
    rfl

end socket

end Pwnative
